import Mathlib

/-!
Verification development for the Legalyze clause-extraction and
risk-scoring pipeline (`backend/app/services/risk_service.py` and
`backend/app/services/clause_service.py`).

Modelling conventions:
* Python strings are modelled as `List Char` (`Str`); Python's
  `str.lower`, `str.strip`, `str.split`, substring containment (`in`),
  slicing and `" ".join` are given explicit character-level definitions.
* Python float arithmetic on the pattern weights is modelled exactly
  over `ℚ` (every constant in the source is a decimal literal).
* Python `int(x)` (truncation towards zero) is modelled by `pyInt`.
* Python dicts used as ordered tables are modelled as association
  lists in the source's insertion order; `dict.get(k, d)` becomes
  `(List.lookup k).getD d`.
-/

namespace Legalyze

/-- Python strings as lists of characters. -/
abbrev Str := List Char

/-- Python's `str.lower()` (per-character lowering; all patterns in the
source tables are ASCII, where this agrees with Python). -/
def lowerStr (s : Str) : Str := s.map Char.toLower

/-- Python's substring test `pat in s`. -/
def containsPat (pat s : Str) : Bool := (s.tails).any (fun t => pat.isPrefixOf t)

/-- Python's `int(q)` for an exact rational: truncation towards zero. -/
def pyInt (q : ℚ) : ℤ := if 0 ≤ q then ⌊q⌋ else ⌈q⌉

/-- Auxiliary word counter: counts maximal non-whitespace runs;
the flag records whether the previous character was non-whitespace. -/
def wcAux : Bool → Str → Nat
  | _, [] => 0
  | inWord, c :: cs =>
    if c.isWhitespace then wcAux false cs
    else (if inWord then 0 else 1) + wcAux true cs

/-- Python's `len(s.split())`: the number of whitespace-separated words. -/
def wc (s : Str) : Nat := wcAux false s

/-- Python's `sep.join(parts)`. -/
def joinSep (sep : Str) : List Str → Str
  | [] => []
  | [x] => x
  | x :: y :: xs => x ++ sep ++ joinSep sep (y :: xs)

/-- Python's `s.strip()`: drop whitespace from both ends. -/
def pyStrip (s : Str) : Str :=
  ((s.dropWhile Char.isWhitespace).reverse.dropWhile Char.isWhitespace).reverse

/-- Python's `s.title()`: first letter of each alphabetic run uppercased,
the rest lowercased.  The flag records whether the previous character was
alphabetic. -/
def pyTitleAux : Bool → Str → Str
  | _, [] => []
  | prevAlpha, c :: cs =>
    if c.isAlpha then
      (if prevAlpha then c.toLower else c.toUpper) :: pyTitleAux true cs
    else c :: pyTitleAux false cs

/-- Python's `s.title()`. -/
def pyTitle (s : Str) : Str := pyTitleAux false s

/-- Python's `s.replace(t, r)` for a single-character target `t`. -/
def substChar (t : Char) (r : Str) : Str → Str
  | [] => []
  | c :: cs => (if c = t then r else [c]) ++ substChar t r cs

/- ══════════════════════════════════════════════════════════════════
   RISK PATTERN REGISTRY (risk_service.py)
   Each entry: (pattern, risk_category, severity_score 1-10)
   ══════════════════════════════════════════════════════════════════ -/

/-- The `HIGH_RISK_PATTERNS` table of `risk_service.py`, in source order. -/
def HIGH_RISK_PATTERNS : List (Str × String × Nat) := [
  ("waive all rights".toList,          "rights_waiver",      10),
  ("irrevocably waive".toList,         "rights_waiver",      10),
  ("no right to".toList,               "rights_waiver",       9),
  ("forfeit all".toList,               "rights_waiver",       9),
  ("relinquish".toList,                "rights_waiver",       8),
  ("sole discretion".toList,           "one_sided_control",   9),
  ("absolute discretion".toList,       "one_sided_control",   9),
  ("at our discretion".toList,         "one_sided_control",   8),
  ("without your consent".toList,      "one_sided_control",   9),
  ("unilaterally".toList,              "one_sided_control",   8),
  ("no refund".toList,                 "financial_risk",      9),
  ("non-refundable".toList,            "financial_risk",      8),
  ("unlimited liability".toList,       "financial_risk",     10),
  ("personal liability".toList,        "financial_risk",      8),
  ("joint and several".toList,         "financial_risk",      7),
  ("irrevocable".toList,               "irrevocable_terms",   9),
  ("perpetual license".toList,         "irrevocable_terms",   8),
  ("in perpetuity".toList,             "irrevocable_terms",   8),
  ("forever".toList,                   "irrevocable_terms",   7),
  ("non-negotiable".toList,            "non_negotiable",      9),
  ("take it or leave".toList,          "non_negotiable",      9),
  ("absolute obligation".toList,       "non_negotiable",      8),
  ("without notice".toList,            "due_process",         9),
  ("without prior notice".toList,      "due_process",         9),
  ("immediate termination".toList,     "due_process",         8),
  ("terminate immediately".toList,     "due_process",         8),
  ("assign all rights".toList,         "ip_risk",             9),
  ("all inventions".toList,            "ip_risk",             8),
  ("worldwide exclusive".toList,       "ip_risk",             8),
  ("all intellectual property".toList, "ip_risk",             8),
  ("any and all competition".toList,   "non_compete",         9),
  ("any competing activity".toList,    "non_compete",         8),
  ("worldwide non-compete".toList,     "non_compete",         9),
  ("indefinite non-compete".toList,    "non_compete",         9)]

/-- The `MEDIUM_RISK_PATTERNS` table of `risk_service.py`, in source order. -/
def MEDIUM_RISK_PATTERNS : List (Str × String × Nat) := [
  ("reasonable efforts".toList,        "vague_obligation",    6),
  ("commercially reasonable".toList,   "vague_obligation",    5),
  ("best efforts".toList,              "vague_obligation",    5),
  ("as determined by".toList,          "vague_obligation",    6),
  ("at the company's option".toList,   "vague_obligation",    6),
  ("limited license".toList,           "limited_rights",      5),
  ("may terminate".toList,             "conditional_risk",    5),
  ("subject to change".toList,         "conditional_risk",    6),
  ("reserves the right".toList,        "conditional_risk",    6),
  ("at our discretion".toList,         "conditional_risk",    6),
  ("partial refund".toList,            "financial_risk",      5),
  ("pro-rata".toList,                  "financial_risk",      4),
  ("variable fee".toList,              "financial_risk",      5),
  ("additional charges".toList,        "financial_risk",      6),
  ("late payment penalty".toList,      "financial_risk",      6),
  ("share your data".toList,           "data_risk",           6),
  ("third party access".toList,        "data_risk",           6),
  ("data retention".toList,            "data_risk",           5),
  ("limited liability".toList,         "liability",           5),
  ("cap on liability".toList,          "liability",           5),
  ("exclusion of damages".toList,      "liability",           6)]

/-- The `LOW_RISK_PATTERNS` table of `risk_service.py`, in source order. -/
def LOW_RISK_PATTERNS : List (Str × String × Nat) := [
  ("mutual agreement".toList,          "balanced_terms",      2),
  ("both parties".toList,              "balanced_terms",      1),
  ("30 days notice".toList,            "fair_process",        2),
  ("written notice".toList,            "fair_process",        2),
  ("reasonable notice".toList,         "fair_process",        2),
  ("either party".toList,              "balanced_terms",      1),
  ("mutual consent".toList,            "balanced_terms",      1)]

/-- The `RISK_WEIGHT` dict of `risk_service.py` (category → weight),
as an association list in insertion order. -/
def RISK_WEIGHT : List (String × ℚ) := [
  ("rights_waiver",     1.5),
  ("one_sided_control", 1.4),
  ("financial_risk",    1.3),
  ("irrevocable_terms", 1.3),
  ("non_negotiable",    1.2),
  ("due_process",       1.2),
  ("ip_risk",           1.3),
  ("non_compete",       1.4),
  ("vague_obligation",  0.9),
  ("limited_rights",    0.8),
  ("conditional_risk",  0.9),
  ("data_risk",         1.0),
  ("liability",         1.0),
  ("balanced_terms",    0.5),
  ("fair_process",      0.5)]

/-- Python's `RISK_WEIGHT.get(category, default)`. -/
def risk_weight_get (category : String) (default : ℚ) : ℚ :=
  (RISK_WEIGHT.lookup category).getD default

/-- One collected risk indicator, as the dict appended by
`_evaluate_clause_risk`. -/
structure Indicator where
  pattern_matched : Str
  risk_category   : String
  severity_score  : Nat
deriving DecidableEq

/-- The 4-tuple `(risk_level, risk_reason, risk_indicators, risk_score)`
returned by `_evaluate_clause_risk`, with named components. -/
structure RiskResult where
  risk_level      : String
  risk_reason     : Str
  risk_indicators : List Indicator
  risk_score      : ℤ
deriving DecidableEq

/-- Builds the indicator dict appended for a matched table entry. -/
def mkIndicator (e : Str × String × Nat) : Indicator :=
  { pattern_matched := e.1, risk_category := e.2.1, severity_score := e.2.2 }

/-- Score contribution of a matched HIGH-table entry:
`severity * RISK_WEIGHT.get(category, 1.0)`. -/
def highContrib (e : Str × String × Nat) : ℚ :=
  (e.2.2 : ℚ) * risk_weight_get e.2.1 1.0

/-- Score contribution of a matched MEDIUM-table entry:
`severity * RISK_WEIGHT.get(category, 1.0) * 0.5` (medium half weight). -/
def medContrib (e : Str × String × Nat) : ℚ :=
  (e.2.2 : ℚ) * risk_weight_get e.2.1 1.0 * 0.5

/-- Score reduction of a matched LOW-table entry:
`severity * RISK_WEIGHT.get(category, 0.5)`. -/
def lowContrib (e : Str × String × Nat) : ℚ :=
  (e.2.2 : ℚ) * risk_weight_get e.2.1 0.5

/-- The HIGH-pattern loop of `_evaluate_clause_risk`: folds over the
HIGH table accumulating `(raw_score, indicators)`. -/
def highPass (text_lower : Str) : ℚ × List Indicator :=
  HIGH_RISK_PATTERNS.foldl
    (fun acc e =>
      if containsPat e.1 text_lower = true then
        (acc.1 + highContrib e, acc.2 ++ [mkIndicator e])
      else acc)
    (0, [])

/-- The MEDIUM-pattern loop of `_evaluate_clause_risk`, continuing from
the state left by the HIGH loop. -/
def medPass (text_lower : Str) (acc₀ : ℚ × List Indicator) : ℚ × List Indicator :=
  MEDIUM_RISK_PATTERNS.foldl
    (fun acc e =>
      if containsPat e.1 text_lower = true then
        (acc.1 + medContrib e, acc.2 ++ [mkIndicator e])
      else acc)
    acc₀

/-- The LOW/balancing-pattern loop of `_evaluate_clause_risk`: reduces
the running raw score, produces no indicators. -/
def lowPass (text_lower : Str) (r : ℚ) : ℚ :=
  LOW_RISK_PATTERNS.foldl
    (fun acc e => if containsPat e.1 text_lower = true then acc - lowContrib e else acc)
    r

/-- Level classification of `_evaluate_clause_risk`:
High if `raw_score >= 12` or any single severity-9+ indicator was
collected; Medium if `raw_score >= 5`; else Low. -/
def riskLevelOf (raw_score : ℚ) (has_critical : Bool) : String :=
  if 12 ≤ raw_score ∨ has_critical = true then "High"
  else if 5 ≤ raw_score then "Medium"
  else "Low"

/-- The `_generate_risk_reason` helper of `risk_service.py`.
Deviation noted: the source materialises `category_set` from a Python
`set`, whose iteration order is unspecified; this model fixes it to
`List.dedup` of the categories of the top indicators.  No claim depends
on the reason text. -/
def _generate_risk_reason (risk_level : String) (indicators : List Indicator)
    (raw_score : ℚ) : Str :=
  if indicators = [] then
    ("No significant risk patterns detected. " ++
     "The language appears balanced and standard.").toList
  else
    let top := (indicators.mergeSort
      (fun a b => decide (b.severity_score ≤ a.severity_score))).take 3
    let pattern_list := joinSep ", ".toList
      (top.map (fun i => '\'' :: (i.pattern_matched ++ ['\''])))
    let category_set := (top.map (fun i => i.risk_category)).dedup
    let category_str := joinSep ", ".toList
      (category_set.map (fun c => pyTitle (substChar '_' [' '] c.toList)))
    if risk_level = "High" then
      "This clause contains highly concerning language: ".toList ++ pattern_list ++
      ". Risk categories identified: ".toList ++ category_str ++
      (". These terms significantly favor one party and may expose you to " ++
       "legal or financial harm. Strongly recommend reviewing with a lawyer.").toList
    else if risk_level = "Medium" then
      "This clause contains moderately risky language: ".toList ++ pattern_list ++
      ". Risk categories: ".toList ++ category_str ++
      (". The terms may be vague or conditionally unfavorable. " ++
       "Consider requesting clearer, more balanced language.").toList
    else if risk_level = "Low" then
      "Minor concerns detected: ".toList ++ pattern_list ++
      (". Overall language appears reasonable. " ++
       "Review in context to ensure terms align with your expectations.").toList
    else "Risk assessment not available.".toList

/-- The core risk evaluator `_evaluate_clause_risk` of `risk_service.py`:
matches the three pattern tables, computes the clamped weighted raw
score, classifies the level (with the critical-severity override),
normalizes to 0-100 via `min(100, int(raw_score / 30.0 * 100))`, and
generates the reason. -/
def _evaluate_clause_risk (text : Str) : RiskResult :=
  let text_lower := lowerStr text
  let p := medPass text_lower (highPass text_lower)
  let raw_score := max 0 (lowPass text_lower p.1)
  let has_critical := p.2.any (fun ind => 9 ≤ ind.severity_score)
  let risk_level := riskLevelOf raw_score has_critical
  let normalized_score := min 100 (pyInt (raw_score / 30 * 100))
  { risk_level      := risk_level,
    risk_reason     := _generate_risk_reason risk_level p.2 raw_score,
    risk_indicators := p.2,
    risk_score      := normalized_score }

/- ══════════════════════════════════════════════════════════════════
   ASSIGNING RISK TO A CLAUSE LIST (risk_service.py)
   ══════════════════════════════════════════════════════════════════ -/

/-- A clause dict as consumed/produced by `risk_service.py`.
`original_text = none` models a clause whose `"original_text"` entry is
missing or not a string, i.e. exactly the inputs on which the Python
`try` body raises (`KeyError` on access / `AttributeError` in
`text.lower()`); on a `some` value the body is total. -/
structure RiskClause where
  original_text   : Option Str
  clause_type     : Option String
  risk_level      : Option String
  risk_reason     : Option Str
  risk_indicators : List Indicator
  risk_score      : Option ℤ
deriving DecidableEq

/-- The error reason written by the `except` branch of
`assign_risk_levels`. -/
def evalErrorReason : Str :=
  "Risk evaluation error — defaulted to Low".toList

/-- Loop body of `assign_risk_levels` for one clause: the `try` branch
evaluates the clause text and writes the four risk fields; the `except`
branch (modelled by `original_text = none`) writes the documented
Low/error/empty/0 defaults. -/
def assignClauseRisk (clause : RiskClause) : RiskClause :=
  match clause.original_text with
  | some t =>
    let r := _evaluate_clause_risk t
    { clause with
      risk_level      := some r.risk_level,
      risk_reason     := some r.risk_reason,
      risk_indicators := r.risk_indicators,
      risk_score      := some r.risk_score }
  | none =>
    { clause with
      risk_level      := some "Low",
      risk_reason     := some evalErrorReason,
      risk_indicators := [],
      risk_score      := some 0 }

/-- The public entry point `assign_risk_levels` of `risk_service.py`:
updates every clause in place (modelled as a map), never propagating a
per-clause evaluation failure. -/
def assign_risk_levels (clauses : List RiskClause) : List RiskClause :=
  clauses.map assignClauseRisk

/-- Per-clause contribution inside `compute_contract_risk_score`:
High ×3.0, Medium ×1.5, otherwise ×0.3, applied to
`clause.get("risk_score", 0) or 0`. -/
def clauseWeighted (clause : RiskClause) : ℚ :=
  let score : ℚ := ((clause.risk_score.getD 0 : ℤ) : ℚ)
  let level := clause.risk_level.getD "Low"
  if level = "High" then score * 3.0
  else if level = "Medium" then score * 1.5
  else score * 0.3

/-- The `compute_contract_risk_score` function of `risk_service.py`. -/
def compute_contract_risk_score (clauses : List RiskClause) : ℤ :=
  if clauses = [] then 0
  else
    let weighted_total : ℚ := clauses.foldl (fun acc c => acc + clauseWeighted c) 0
    let max_possible : ℚ := (clauses.length : ℚ) * 300.0
    min 100 (pyInt (weighted_total / max_possible * 100))

/-- Association-list update modelling
`type_risk[ct] = type_risk.get(ct, 0) + 1` on an insertion-ordered
Python dict: bump the first matching key in place, else append. -/
def bumpCount : List (String × Nat) → String → List (String × Nat)
  | [], ct => [(ct, 1)]
  | (k, v) :: t, ct =>
    if k = ct then (k, v + 1) :: t else (k, v) :: bumpCount t ct

/-- The `type_risk` dict built by `get_top_risky_clause_type`: counts of
High-risk clauses per clause type, keys in order of first appearance. -/
def typeRiskOf (clauses : List RiskClause) : List (String × Nat) :=
  clauses.foldl
    (fun tr c =>
      if c.risk_level = some "High" then bumpCount tr (c.clause_type.getD "Other")
      else tr)
    []

/-- Python's `max(iterable, key=...)`: first element attaining the
maximum of the key, scanning left to right. -/
def pyMaxBy {α : Type} (val : α → Nat) (h : α) (t : List α) : α :=
  t.foldl (fun best x => if val best < val x then x else best) h

/-- The `get_top_risky_clause_type` function of `risk_service.py`. -/
def get_top_risky_clause_type (clauses : List RiskClause) : Option String :=
  match typeRiskOf clauses with
  | [] => none
  | h :: t => some (pyMaxBy (fun p => p.2) h t).1

/- ══════════════════════════════════════════════════════════════════
   CHARACTERIZATION OF THE RISK EVALUATOR
   ══════════════════════════════════════════════════════════════════ -/

/-- Entries of a pattern table that match a clause text (the table
entries whose pattern occurs in the lowercased text, in table order). -/
def matchedOf (tbl : List (Str × String × Nat)) (text : Str) : List (Str × String × Nat) :=
  tbl.filter (fun e => containsPat e.1 (lowerStr text))

/-- The indicator list collected by `_evaluate_clause_risk`: HIGH-table
matches first (in table order), then MEDIUM-table matches (in table
order). -/
def indicatorsOf (text : Str) : List Indicator :=
  (matchedOf HIGH_RISK_PATTERNS text).map mkIndicator ++
  (matchedOf MEDIUM_RISK_PATTERNS text).map mkIndicator

/-- The raw weighted score of a clause text: HIGH plus MEDIUM matched
contributions, minus LOW matched reductions, clamped below at 0. -/
def raw_score_of (text : Str) : ℚ :=
  max 0 (((matchedOf HIGH_RISK_PATTERNS text).map highContrib).sum +
         ((matchedOf MEDIUM_RISK_PATTERNS text).map medContrib).sum -
         ((matchedOf LOW_RISK_PATTERNS text).map lowContrib).sum)

/-- Whether any collected indicator has severity 9 or above. -/
def hasCriticalOf (text : Str) : Bool :=
  (indicatorsOf text).any (fun ind => 9 ≤ ind.severity_score)

/-- Numeric rank of a risk level, for comparing levels (Low < Medium < High). -/
def levelRank (level : String) : Nat :=
  if level = "High" then 2 else if level = "Medium" then 1 else 0

theorem pyInt_of_nonneg {q : ℚ} (h : 0 ≤ q) : pyInt q = ⌊q⌋ := by
  unfold pyInt
  rw [if_pos h]

theorem foldl_collect (tl : Str) (contrib : Str × String × Nat → ℚ) :
    ∀ (tbl : List (Str × String × Nat)) (acc₀ : ℚ × List Indicator),
    tbl.foldl
      (fun acc e =>
        if containsPat e.1 tl = true then (acc.1 + contrib e, acc.2 ++ [mkIndicator e])
        else acc)
      acc₀
    = (acc₀.1 + ((tbl.filter (fun e => containsPat e.1 tl)).map contrib).sum,
       acc₀.2 ++ (tbl.filter (fun e => containsPat e.1 tl)).map mkIndicator) := by
  intro tbl
  induction tbl with
  | nil => intro acc₀; simp
  | cons e t ih =>
    intro acc₀
    by_cases h : containsPat e.1 tl = true
    · simp only [List.foldl_cons, if_pos h, ih, List.filter_cons, h, if_true,
        List.map_cons, List.sum_cons]
      exact Prod.ext (by ring) (by simp)
    · simp only [List.foldl_cons, if_neg h, ih, List.filter_cons, h]
      simp

theorem foldl_reduce (tl : Str) (contrib : Str × String × Nat → ℚ) :
    ∀ (tbl : List (Str × String × Nat)) (r : ℚ),
    tbl.foldl (fun acc e => if containsPat e.1 tl = true then acc - contrib e else acc) r
    = r - ((tbl.filter (fun e => containsPat e.1 tl)).map contrib).sum := by
  intro tbl
  induction tbl with
  | nil => intro r; simp
  | cons e t ih =>
    intro r
    by_cases h : containsPat e.1 tl = true
    · simp only [List.foldl_cons, if_pos h, ih, List.filter_cons, h, if_true,
        List.map_cons, List.sum_cons]
      ring
    · simp only [List.foldl_cons, if_neg h, ih, List.filter_cons, h]
      simp

/-- Closed-form characterization of `_evaluate_clause_risk` in terms of
the matched-entry lists. -/
theorem evaluate_clause_risk_eq (text : Str) :
    _evaluate_clause_risk text =
      { risk_level      := riskLevelOf (raw_score_of text) (hasCriticalOf text),
        risk_reason     := _generate_risk_reason
          (riskLevelOf (raw_score_of text) (hasCriticalOf text))
          (indicatorsOf text) (raw_score_of text),
        risk_indicators := indicatorsOf text,
        risk_score      := min 100 (pyInt (raw_score_of text / 30 * 100)) } := by
  simp only [_evaluate_clause_risk, highPass, medPass, lowPass, foldl_collect,
    foldl_reduce, raw_score_of, indicatorsOf, hasCriticalOf, matchedOf,
    zero_add, List.nil_append]

/- ══════════════════════════════════════════════════════════════════
   CLAIM C1, C5, C10 — risk evaluator properties
   ══════════════════════════════════════════════════════════════════ -/

/-- C1.  Critical-severity override: whenever pattern matching collects
at least one indicator with severity_score ≥ 9, `_evaluate_clause_risk`
classifies the clause as High — unconditionally, hence in particular
even when LOW-table balancing matches drive the aggregate raw score
below the numeric High threshold of 12. -/
theorem critical_severity_override (text : Str)
    (h : ∃ ind ∈ (_evaluate_clause_risk text).risk_indicators, 9 ≤ ind.severity_score) :
    (_evaluate_clause_risk text).risk_level = "High" := by
  rw [evaluate_clause_risk_eq] at h ⊢
  simp only [riskLevelOf]
  have hc : hasCriticalOf text = true := by
    simp only [hasCriticalOf, List.any_eq_true, decide_eq_true_eq]
    simpa using h
  rw [if_pos (Or.inr hc)]

/-- Witness for C1: the clause text "no refund" matches a severity-9
HIGH pattern and is classified High. -/
theorem critical_severity_override_witness :
    (∃ ind ∈ (_evaluate_clause_risk "no refund".toList).risk_indicators,
        9 ≤ ind.severity_score) ∧
    (_evaluate_clause_risk "no refund".toList).risk_level = "High" := by
  have h : ∃ ind ∈ (_evaluate_clause_risk "no refund".toList).risk_indicators,
      9 ≤ ind.severity_score := by
    rw [evaluate_clause_risk_eq]
    decide
  exact ⟨h, critical_severity_override _ h⟩

/-- C5.  Score normalization: for every clause text the normalized
risk_score equals `min(100, floor(raw_score / 30 * 100))` where
`raw_score_of` is the weighted pattern sum clamped below at 0;
consequently every scored clause satisfies `0 ≤ risk_score ≤ 100`. -/
theorem score_normalization (text : Str) :
    (_evaluate_clause_risk text).risk_score =
      min 100 ⌊raw_score_of text / 30 * 100⌋ ∧
    0 ≤ (_evaluate_clause_risk text).risk_score ∧
    (_evaluate_clause_risk text).risk_score ≤ 100 := by
  have hraw : (0:ℚ) ≤ raw_score_of text := le_max_left 0 _
  have hq : (0:ℚ) ≤ raw_score_of text / 30 * 100 := by positivity
  rw [evaluate_clause_risk_eq]
  refine ⟨by rw [pyInt_of_nonneg hq], ?_, ?_⟩
  · rw [pyInt_of_nonneg hq]
    exact le_min (by norm_num) (Int.floor_nonneg.mpr hq)
  · exact min_le_left _ _

/-- C10.  Indicator ordering: the risk_indicators list produced by
`_evaluate_clause_risk` is exactly the HIGH-table matches first, in
HIGH-table entry order, followed by the MEDIUM-table matches in
MEDIUM-table entry order; in particular LOW-table matches never
contribute an indicator. -/
theorem indicator_ordering (text : Str) :
    (_evaluate_clause_risk text).risk_indicators =
      (HIGH_RISK_PATTERNS.filter (fun e => containsPat e.1 (lowerStr text))).map mkIndicator ++
      (MEDIUM_RISK_PATTERNS.filter (fun e => containsPat e.1 (lowerStr text))).map mkIndicator := by
  rw [evaluate_clause_risk_eq]
  rfl

/- ══════════════════════════════════════════════════════════════════
   CLAIM C7 — balancing monotonicity
   ══════════════════════════════════════════════════════════════════ -/

theorem lookup_mem {α β : Type} [BEq α] [LawfulBEq α] :
    ∀ {l : List (α × β)} {k : α} {v : β}, l.lookup k = some v → (k, v) ∈ l := by
  intro l
  induction l with
  | nil => intro k v h; simp [List.lookup] at h
  | cons p t ih =>
    intro k v h
    rw [List.lookup] at h
    cases hk : k == p.1 with
    | false =>
      simp only [hk] at h
      exact List.mem_cons_of_mem _ (ih h)
    | true =>
      simp only [hk] at h
      apply List.mem_cons.mpr
      left
      rw [eq_of_beq hk, ← Option.some_inj.mp h]

theorem risk_weight_get_nonneg (category : String) {d : ℚ} (hd : 0 ≤ d) :
    0 ≤ risk_weight_get category d := by
  unfold risk_weight_get
  cases h : RISK_WEIGHT.lookup category with
  | none => simpa using hd
  | some v =>
    simp only [Option.getD_some]
    have hv := lookup_mem h
    have : ∀ p ∈ RISK_WEIGHT, (0:ℚ) ≤ p.2 := by
      intro p hp
      fin_cases hp <;> norm_num
    exact this _ hv

theorem lowContrib_nonneg (e : Str × String × Nat) : 0 ≤ lowContrib e := by
  unfold lowContrib
  exact mul_nonneg (by positivity) (risk_weight_get_nonneg _ (by norm_num))

theorem sum_filter_mono {α : Type} (f : α → ℚ) (p q : α → Bool) :
    ∀ l : List α, (∀ e ∈ l, 0 ≤ f e) → (∀ e ∈ l, p e = true → q e = true) →
    ((l.filter p).map f).sum ≤ ((l.filter q).map f).sum := by
  intro l
  induction l with
  | nil => intro _ _; simp
  | cons e t ih =>
    intro hf himp
    have hft : ∀ x ∈ t, 0 ≤ f x := fun x hx => hf x (List.mem_cons_of_mem _ hx)
    have hit : ∀ x ∈ t, p x = true → q x = true :=
      fun x hx => himp x (List.mem_cons_of_mem _ hx)
    have base := ih hft hit
    by_cases hp : p e = true
    · have hq : q e = true := himp e (List.mem_cons_self _ _) hp
      simp only [List.filter_cons, hp, hq, if_true, List.map_cons, List.sum_cons]
      linarith
    · by_cases hq : q e = true
      · simp only [List.filter_cons, hp, hq, if_true, if_false, List.map_cons,
          List.sum_cons]
        have := hf e (List.mem_cons_self _ _)
        simp only [Bool.false_eq_true, if_false]
        linarith
      · simp only [List.filter_cons, hp, hq]
        simpa using base

theorem riskLevelOf_mono {r r' : ℚ} (hc : Bool) (h : r' ≤ r) :
    levelRank (riskLevelOf r' hc) ≤ levelRank (riskLevelOf r hc) := by
  unfold riskLevelOf
  by_cases h12 : (12:ℚ) ≤ r' ∨ hc = true
  · have h12r : (12:ℚ) ≤ r ∨ hc = true := by
      rcases h12 with h' | h'
      · exact Or.inl (le_trans h' h)
      · exact Or.inr h'
    rw [if_pos h12, if_pos h12r]
  · rw [if_neg h12]
    by_cases h12r : (12:ℚ) ≤ r ∨ hc = true
    · rw [if_pos h12r]
      refine le_trans ?_ (by decide : levelRank "Medium" ≤ levelRank "High")
      split
      · exact le_refl _
      · exact (by decide : levelRank "Low" ≤ levelRank "Medium")
    · rw [if_neg h12r]
      by_cases h5 : (5:ℚ) ≤ r'
      · rw [if_pos h5, if_pos (le_trans h5 h)]
      · rw [if_neg h5]
        split
        · exact (by decide : levelRank "Low" ≤ levelRank "Medium")
        · exact le_refl _

/-- C7.  Balancing monotonicity: if two clause texts produce identical
HIGH- and MEDIUM-table match lists, and the second matches every
LOW-table balancing pattern the first matches plus at least one more,
then the second text's clamped raw score is ≤ the first's and its risk
level is never higher (Low < Medium < High). -/
theorem balancing_monotone (t1 t2 : Str)
    (hh : matchedOf HIGH_RISK_PATTERNS t1 = matchedOf HIGH_RISK_PATTERNS t2)
    (hm : matchedOf MEDIUM_RISK_PATTERNS t1 = matchedOf MEDIUM_RISK_PATTERNS t2)
    (hl : ∀ e ∈ LOW_RISK_PATTERNS,
      containsPat e.1 (lowerStr t1) = true → containsPat e.1 (lowerStr t2) = true)
    (hx : ∃ e ∈ LOW_RISK_PATTERNS,
      containsPat e.1 (lowerStr t2) = true ∧ containsPat e.1 (lowerStr t1) = false) :
    raw_score_of t2 ≤ raw_score_of t1 ∧
    levelRank (_evaluate_clause_risk t2).risk_level ≤
      levelRank (_evaluate_clause_risk t1).risk_level := by
  have hlsum : ((matchedOf LOW_RISK_PATTERNS t1).map lowContrib).sum ≤
      ((matchedOf LOW_RISK_PATTERNS t2).map lowContrib).sum := by
    unfold matchedOf
    exact sum_filter_mono lowContrib _ _ LOW_RISK_PATTERNS
      (fun e _ => lowContrib_nonneg e) hl
  have hraw : raw_score_of t2 ≤ raw_score_of t1 := by
    unfold raw_score_of
    rw [← hh, ← hm]
    exact max_le_max le_rfl (by linarith)
  have hind : indicatorsOf t1 = indicatorsOf t2 := by
    unfold indicatorsOf
    rw [hh, hm]
  have hcrit : hasCriticalOf t1 = hasCriticalOf t2 := by
    unfold hasCriticalOf
    rw [hind]
  refine ⟨hraw, ?_⟩
  rw [evaluate_clause_risk_eq t1, evaluate_clause_risk_eq t2]
  simp only []
  rw [← hcrit]
  exact riskLevelOf_mono _ hraw

/-- Witness for C7: adding "by mutual agreement" to a clause matching
only the MEDIUM pattern "may terminate" does not raise its risk level. -/
theorem balancing_monotone_witness :
    levelRank (_evaluate_clause_risk
        "we may terminate this deal by mutual agreement".toList).risk_level ≤
      levelRank (_evaluate_clause_risk "we may terminate this deal".toList).risk_level :=
  (balancing_monotone "we may terminate this deal".toList
    "we may terminate this deal by mutual agreement".toList
    (by decide) (by decide) (by decide) (by decide)).2

/- ══════════════════════════════════════════════════════════════════
   CLAIM C3 — per-clause error containment in assign_risk_levels
   ══════════════════════════════════════════════════════════════════ -/

/-- C3.  Error containment and batch independence: if risk evaluation of
the i-th clause fails (`original_text = none` models the inputs on which
the Python body raises), `assign_risk_levels` gives that clause
risk_level "Low", the explicit evaluation-error reason, empty
indicators, and score 0; the output has the same length as the input and
every position j is exactly `assignClauseRisk` of input j alone, so no
exception escapes and no other clause's scoring outcome is affected. -/
theorem risk_error_containment (clauses : List RiskClause) (i : Nat) (c : RiskClause)
    (hc : clauses.get? i = some c) (hfail : c.original_text = none) :
    (assign_risk_levels clauses).length = clauses.length ∧
    (assign_risk_levels clauses).get? i = some
      { c with
        risk_level      := some "Low",
        risk_reason     := some evalErrorReason,
        risk_indicators := [],
        risk_score      := some 0 } ∧
    ∀ j, (assign_risk_levels clauses).get? j = (clauses.get? j).map assignClauseRisk := by
  refine ⟨List.length_map _ _, ?_, fun j => List.get?_map _ _ _⟩
  rw [assign_risk_levels, List.get?_map, hc]
  simp [assignClauseRisk, hfail]

/-- Demonstration input for the C3 witness: a clause on which risk
evaluation fails. -/
def demoFailClause : RiskClause :=
  { original_text := none, clause_type := some "Payment", risk_level := none,
    risk_reason := none, risk_indicators := [], risk_score := none }

/-- Demonstration input for the C3 witness: a well-formed clause. -/
def demoOkClause : RiskClause :=
  { original_text := some "both parties agree to pay".toList,
    clause_type := some "Payment", risk_level := none,
    risk_reason := none, risk_indicators := [], risk_score := none }

/-- Witness for C3 on a concrete two-clause batch whose first clause
fails evaluation. -/
theorem risk_error_containment_witness :
    (assign_risk_levels [demoFailClause, demoOkClause]).get? 0 = some
      { demoFailClause with
        risk_level      := some "Low",
        risk_reason     := some evalErrorReason,
        risk_indicators := [],
        risk_score      := some 0 } :=
  (risk_error_containment [demoFailClause, demoOkClause] 0 demoFailClause rfl rfl).2.1

/- ══════════════════════════════════════════════════════════════════
   CLAIM C2 — contract aggregate score
   ══════════════════════════════════════════════════════════════════ -/

theorem foldl_add_eq_sum {α : Type} (f : α → ℚ) :
    ∀ (l : List α) (q : ℚ), l.foldl (fun acc c => acc + f c) q = q + (l.map f).sum := by
  intro l
  induction l with
  | nil => intro q; simp
  | cons c t ih =>
    intro q
    simp only [List.foldl_cons, ih, List.map_cons, List.sum_cons]
    ring

theorem clauseWeighted_nonneg (c : RiskClause) (h : 0 ≤ c.risk_score.getD 0) :
    0 ≤ clauseWeighted c := by
  unfold clauseWeighted
  have hs : (0:ℚ) ≤ ((c.risk_score.getD 0 : ℤ) : ℚ) := by exact_mod_cast h
  dsimp only
  split
  · linarith
  · split
    · linarith
    · linarith

/-- C2.  Contract aggregate score: `compute_contract_risk_score` returns
exactly 0 on the empty clause list; on a non-empty list with the data
model's `risk_score ≥ 0` invariant it returns
`min(100, floor((Σ risk_score × level weight) / (clause_count × 300) × 100))`
with weights High 3.0 / Medium 1.5 / otherwise 0.3 (encoded by
`clauseWeighted`), and the result always lies in [0, 100]. -/
theorem contract_score_spec :
    compute_contract_risk_score [] = 0 ∧
    ∀ clauses : List RiskClause, clauses ≠ [] →
      (∀ c ∈ clauses, 0 ≤ c.risk_score.getD 0) →
      compute_contract_risk_score clauses =
        min 100 ⌊(clauses.map clauseWeighted).sum / ((clauses.length : ℚ) * 300) * 100⌋ ∧
      0 ≤ compute_contract_risk_score clauses ∧
      compute_contract_risk_score clauses ≤ 100 := by
  constructor
  · rfl
  · intro clauses hne hnn
    have hlen : (0:ℚ) < (clauses.length : ℚ) := by
      have : 0 < clauses.length := List.length_pos.mpr hne
      exact_mod_cast this
    have hsum : (0:ℚ) ≤ (clauses.map clauseWeighted).sum := by
      apply List.sum_nonneg
      intro x hx
      obtain ⟨c, hcmem, rfl⟩ := List.mem_map.mp hx
      exact clauseWeighted_nonneg c (hnn c hcmem)
    have hq : (0:ℚ) ≤ (clauses.map clauseWeighted).sum /
        ((clauses.length : ℚ) * 300) * 100 := by positivity
    have heq : compute_contract_risk_score clauses =
        min 100 ⌊(clauses.map clauseWeighted).sum / ((clauses.length : ℚ) * 300) * 100⌋ := by
      simp only [compute_contract_risk_score, if_neg hne, foldl_add_eq_sum, zero_add]
      rw [show ((clauses.length : ℚ) * 300.0) = (clauses.length : ℚ) * 300 from by
        norm_num]
      rw [pyInt_of_nonneg hq]
    refine ⟨heq, ?_, ?_⟩
    · rw [heq]
      exact le_min (by norm_num) (Int.floor_nonneg.mpr hq)
    · rw [heq]
      exact min_le_left _ _

/-- Demonstration input for the C2 witness: one High clause with
risk_score 50. -/
def demoHighClause : RiskClause :=
  { original_text := none, clause_type := some "Payment",
    risk_level := some "High", risk_reason := none,
    risk_indicators := [], risk_score := some 50 }

/-- Witness for C2 on a concrete one-clause list: the aggregate is
`min(100, floor(150/300 × 100)) = 50`, within [0, 100]. -/
theorem contract_score_spec_witness :
    compute_contract_risk_score [demoHighClause] =
      min 100 ⌊([demoHighClause].map clauseWeighted).sum /
        (([demoHighClause].length : ℚ) * 300) * 100⌋ ∧
    0 ≤ compute_contract_risk_score [demoHighClause] ∧
    compute_contract_risk_score [demoHighClause] ≤ 100 :=
  contract_score_spec.2 [demoHighClause] (by decide) (by decide)

/- ══════════════════════════════════════════════════════════════════
   CLAIM C8 — top risky clause type
   ══════════════════════════════════════════════════════════════════ -/

/-- Clause types of the High-risk clauses, in clause-list order (the
order in which `get_top_risky_clause_type` inserts keys into its
counting dict). -/
def highTypes (clauses : List RiskClause) : List String :=
  (clauses.filter (fun c => decide (c.risk_level = some "High"))).map
    (fun c => c.clause_type.getD "Other")

/-- Insert a key into an insertion-ordered key list if not yet present
(the key behaviour of a Python dict). -/
def firstInsert (ks : List String) (x : String) : List String :=
  if x ∈ ks then ks else ks ++ [x]

/-- Deduplication keeping first occurrences, in order — the key order of
an insertion-ordered Python dict fed the given list. -/
def firstDedup (l : List String) : List String := l.foldl firstInsert []

theorem pyMaxBy_spec {α : Type} (val : α → Nat) :
    ∀ (t : List α) (h : α),
    ∃ l1 l2, h :: t = l1 ++ pyMaxBy val h t :: l2 ∧
      (∀ y ∈ l1, val y < val (pyMaxBy val h t)) ∧
      ∀ y ∈ h :: t, val y ≤ val (pyMaxBy val h t) := by
  intro t
  induction t with
  | nil =>
    intro h
    exact ⟨[], [], rfl, by simp, by simp [pyMaxBy]⟩
  | cons x t ih =>
    intro h
    by_cases hx : val h < val x
    · obtain ⟨l1, l2, hdecomp, hpre, hall⟩ := ih x
      have hpy : pyMaxBy val h (x :: t) = pyMaxBy val x t := by
        simp [pyMaxBy, hx]
      refine ⟨h :: l1, l2, ?_, ?_, ?_⟩
      · rw [hpy, List.cons_append, ← hdecomp]
      · intro y hy
        rw [hpy]
        rcases List.mem_cons.mp hy with rfl | hy'
        · exact lt_of_lt_of_le hx (hall x (List.mem_cons_self _ _))
        · exact hpre y hy'
      · intro y hy
        rw [hpy]
        rcases List.mem_cons.mp hy with rfl | hy'
        · exact le_of_lt (lt_of_lt_of_le hx (hall x (List.mem_cons_self _ _)))
        · exact hall y hy'
    · obtain ⟨l1, l2, hdecomp, hpre, hall⟩ := ih h
      have hpy : pyMaxBy val h (x :: t) = pyMaxBy val h t := by
        simp [pyMaxBy, hx]
      cases l1 with
      | nil =>
        have hh : h = pyMaxBy val h t := by
          have := hdecomp
          simp only [List.nil_append] at this
          exact (List.cons_eq_cons.mp this).1
        refine ⟨[], x :: t, ?_, by simp, ?_⟩
        · rw [hpy, ← hh]
          rfl
        · intro y hy
          rw [hpy]
          rcases List.mem_cons.mp hy with rfl | hy'
          · exact hall _ (List.mem_cons_self _ _)
          rcases List.mem_cons.mp hy' with rfl | hy''
          · exact le_trans (le_of_not_lt hx) (hall _ (List.mem_cons_self _ _))
          · exact hall _ (List.mem_cons_of_mem _ hy'')
      | cons h1 l1' =>
        have hh : h = h1 ∧ t = l1' ++ pyMaxBy val h t :: l2 := by
          have := hdecomp
          simp only [List.cons_append] at this
          exact List.cons_eq_cons.mp this
        have hpre_h : val h < val (pyMaxBy val h t) := by
          have := hpre h1 (List.mem_cons_self _ _)
          rw [← hh.1] at this
          exact this
        refine ⟨h :: x :: l1', l2, ?_, ?_, ?_⟩
        · rw [hpy]
          simp only [List.cons_append]
          rw [← hh.2]
        · intro y hy
          rw [hpy]
          rcases List.mem_cons.mp hy with rfl | hy'
          · exact hpre_h
          rcases List.mem_cons.mp hy' with rfl | hy''
          · exact lt_of_le_of_lt (le_of_not_lt hx) hpre_h
          · exact hpre y (List.mem_cons_of_mem _ hy'')
        · intro y hy
          rw [hpy]
          rcases List.mem_cons.mp hy with rfl | hy'
          · exact hall _ (List.mem_cons_self _ _)
          rcases List.mem_cons.mp hy' with rfl | hy''
          · exact le_trans (le_of_not_lt hx) (hall _ (List.mem_cons_self _ _))
          · exact hall y (List.mem_cons_of_mem _ hy'')

theorem lookup_bump (ct k : String) :
    ∀ acc : List (String × Nat),
    List.lookup k (bumpCount acc ct) =
      if k = ct then some ((List.lookup k acc).getD 0 + 1) else List.lookup k acc := by
  intro acc
  induction acc with
  | nil =>
    by_cases hk : k = ct
    · have hb : (k == ct) = true := beq_iff_eq.mpr hk
      simp [bumpCount, List.lookup, hb, hk]
    · have hb : (k == ct) = false := beq_eq_false_iff_ne.mpr hk
      simp [bumpCount, List.lookup, hb, hk]
  | cons p t ih =>
    obtain ⟨a, b⟩ := p
    by_cases hac : a = ct
    · subst hac
      by_cases hk : k = a
      · subst hk
        simp [bumpCount, List.lookup]
      · have hb : (k == a) = false := beq_eq_false_iff_ne.mpr hk
        simp [bumpCount, List.lookup, hb, hk]
    · by_cases hk : k = a
      · subst hk
        have hb : (k == ct) = false := beq_eq_false_iff_ne.mpr hac
        simp [bumpCount, List.lookup, hac, hb]
      · have hb : (k == a) = false := beq_eq_false_iff_ne.mpr hk
        simp [bumpCount, List.lookup, hac, hb, ih]

theorem keys_bump (ct : String) :
    ∀ acc : List (String × Nat),
    (bumpCount acc ct).map Prod.fst = firstInsert (acc.map Prod.fst) ct := by
  intro acc
  induction acc with
  | nil => simp [bumpCount, firstInsert]
  | cons p t ih =>
    obtain ⟨a, b⟩ := p
    by_cases hac : a = ct
    · simp [bumpCount, hac, firstInsert]
    · have hca : ¬ct = a := fun h => hac h.symm
      by_cases hmem : ct ∈ t.map Prod.fst
      · simp [bumpCount, hac, firstInsert, ih, hmem, hca]
      · simp [bumpCount, hac, firstInsert, ih, hmem, hca]

theorem foldl_bump_lookup (k : String) :
    ∀ (l : List String) (acc : List (String × Nat)),
    ((l.foldl bumpCount acc).lookup k).getD 0 = (acc.lookup k).getD 0 + l.count k := by
  intro l
  induction l with
  | nil => intro acc; simp
  | cons x t ih =>
    intro acc
    rw [List.foldl_cons, ih, lookup_bump]
    by_cases hk : k = x
    · rw [if_pos hk]
      subst hk
      simp only [Option.getD_some, List.count_cons, beq_self_eq_true, if_true]
      omega
    · rw [if_neg hk]
      have hb1 : (k == x) = false := beq_eq_false_iff_ne.mpr hk
      have hb2 : (x == k) = false := beq_eq_false_iff_ne.mpr (fun h => hk h.symm)
      simp [List.count_cons, hb1, hb2]

theorem foldl_bump_keys :
    ∀ (l : List String) (acc : List (String × Nat)),
    (l.foldl bumpCount acc).map Prod.fst = l.foldl firstInsert (acc.map Prod.fst) := by
  intro l
  induction l with
  | nil => intro acc; rfl
  | cons x t ih =>
    intro acc
    rw [List.foldl_cons, List.foldl_cons, ih, keys_bump]

theorem nodup_foldl_firstInsert :
    ∀ (l ks : List String), ks.Nodup → (l.foldl firstInsert ks).Nodup := by
  intro l
  induction l with
  | nil => intro ks h; exact h
  | cons x t ih =>
    intro ks h
    rw [List.foldl_cons]
    apply ih
    unfold firstInsert
    by_cases hx : x ∈ ks
    · rw [if_pos hx]; exact h
    · rw [if_neg hx]
      refine List.Nodup.append h (List.nodup_singleton x) ?_
      intro a ha hax
      have hax' : a = x := by simpa using hax
      exact hx (hax' ▸ ha)

theorem mem_foldl_firstInsert :
    ∀ (l ks : List String) (x : String),
    x ∈ l.foldl firstInsert ks ↔ x ∈ ks ∨ x ∈ l := by
  intro l
  induction l with
  | nil => intro ks x; simp
  | cons y t ih =>
    intro ks x
    rw [List.foldl_cons, ih]
    unfold firstInsert
    by_cases hy : y ∈ ks
    · rw [if_pos hy]
      constructor
      · rintro (h | h)
        · exact Or.inl h
        · exact Or.inr (List.mem_cons_of_mem _ h)
      · rintro (h | h)
        · exact Or.inl h
        · rcases List.mem_cons.mp h with rfl | h'
          · exact Or.inl hy
          · exact Or.inr h'
    · rw [if_neg hy]
      constructor
      · rintro (h | h)
        · rcases List.mem_append.mp h with h' | h'
          · exact Or.inl h'
          · simp at h'
            exact Or.inr (h' ▸ List.mem_cons_self _ _)
        · exact Or.inr (List.mem_cons_of_mem _ h)
      · rintro (h | h)
        · exact Or.inl (List.mem_append_left _ h)
        · rcases List.mem_cons.mp h with rfl | h'
          · exact Or.inl (List.mem_append_right _ (List.mem_cons_self _ _))
          · exact Or.inr h'

theorem foldl_firstInsert_ne_nil :
    ∀ (l ks : List String), ks ≠ [] → l.foldl firstInsert ks ≠ [] := by
  intro l
  induction l with
  | nil => intro ks h; exact h
  | cons x t ih =>
    intro ks h
    rw [List.foldl_cons]
    apply ih
    unfold firstInsert
    by_cases hx : x ∈ ks
    · rw [if_pos hx]; exact h
    · rw [if_neg hx]
      exact List.append_ne_nil_of_right_ne_nil _ (by simp)

theorem firstDedup_eq_nil_iff (l : List String) : firstDedup l = [] ↔ l = [] := by
  cases l with
  | nil => simp [firstDedup]
  | cons x t =>
    unfold firstDedup
    rw [List.foldl_cons]
    constructor
    · intro h
      exact absurd h (foldl_firstInsert_ne_nil t (firstInsert [] x) (by simp [firstInsert]))
    · intro h
      exact absurd h (List.cons_ne_nil _ _)

theorem lookup_of_mem_nodup_keys :
    ∀ (acc : List (String × Nat)), (acc.map Prod.fst).Nodup →
    ∀ p ∈ acc, acc.lookup p.1 = some p.2 := by
  intro acc
  induction acc with
  | nil => intro _ p hp; exact absurd hp (List.not_mem_nil p)
  | cons q t ih =>
    intro hnd p hp
    have hnd' : (t.map Prod.fst).Nodup := (List.nodup_cons.mp (by simpa using hnd)).2
    rcases List.mem_cons.mp hp with rfl | hp'
    · simp [List.lookup]
    · have hne : ¬(p.1 == q.1) = true := by
        simp only [beq_iff_eq]
        intro he
        have : q.1 ∉ t.map Prod.fst := (List.nodup_cons.mp (by simpa using hnd)).1
        exact this (he ▸ List.mem_map_of_mem Prod.fst hp')
      rw [List.lookup]
      simp only [Bool.not_eq_true] at hne
      rw [hne]
      exact ih hnd' p hp'

theorem typeRisk_fold (clauses : List RiskClause) :
    ∀ acc, clauses.foldl
      (fun tr c =>
        if c.risk_level = some "High" then bumpCount tr (c.clause_type.getD "Other")
        else tr)
      acc = (highTypes clauses).foldl bumpCount acc := by
  induction clauses with
  | nil => intro acc; rfl
  | cons c t ih =>
    intro acc
    by_cases hc : c.risk_level = some "High"
    · simp [highTypes, List.filter_cons, hc, ih]
    · simp [highTypes, List.filter_cons, hc, ih]

theorem typeRiskOf_eq (clauses : List RiskClause) :
    typeRiskOf clauses = (highTypes clauses).foldl bumpCount [] :=
  typeRisk_fold clauses []

theorem typeRisk_keys (clauses : List RiskClause) :
    (typeRiskOf clauses).map Prod.fst = firstDedup (highTypes clauses) := by
  rw [typeRiskOf_eq, foldl_bump_keys]
  rfl

theorem typeRisk_val (clauses : List RiskClause) :
    ∀ p ∈ typeRiskOf clauses, p.2 = (highTypes clauses).count p.1 := by
  intro p hp
  have hnodup : ((typeRiskOf clauses).map Prod.fst).Nodup := by
    rw [typeRisk_keys]
    exact nodup_foldl_firstInsert _ _ (by simp)
  have hlook := lookup_of_mem_nodup_keys _ hnodup p hp
  have hlk : ((typeRiskOf clauses).lookup p.1).getD 0 = (highTypes clauses).count p.1 := by
    rw [typeRiskOf_eq, foldl_bump_lookup]
    simp [List.lookup]
  rw [hlook] at hlk
  simpa using hlk

/-- C8.  Top risky clause type: `get_top_risky_clause_type` returns
`none` iff no clause is High-risk; otherwise it returns a clause type
with the greatest number of High-risk clauses, and among the tied maxima
it is the one appearing first in the counting dict's insertion order
(`firstDedup (highTypes clauses)`, the order in which clause types first
contribute a High-risk clause) — the same first-wins-on-iteration-order
policy as the classifier's keyword-table tie-break. -/
theorem top_risky_clause_type_spec (clauses : List RiskClause) :
    (get_top_risky_clause_type clauses = none ↔
      ∀ c ∈ clauses, c.risk_level ≠ some "High") ∧
    ∀ ct, get_top_risky_clause_type clauses = some ct →
      0 < (highTypes clauses).count ct ∧
      (∀ ct', (highTypes clauses).count ct' ≤ (highTypes clauses).count ct) ∧
      ∃ K1 K2, firstDedup (highTypes clauses) = K1 ++ ct :: K2 ∧
        ∀ k ∈ K1, (highTypes clauses).count k < (highTypes clauses).count ct := by
  constructor
  · constructor
    · intro hnone c hc hlev
      unfold get_top_risky_clause_type at hnone
      cases htr : typeRiskOf clauses with
      | nil =>
        have hfd : firstDedup (highTypes clauses) = [] := by
          rw [← typeRisk_keys, htr]
          rfl
        have hht : highTypes clauses = [] := (firstDedup_eq_nil_iff _).mp hfd
        have hmem : c.clause_type.getD "Other" ∈ highTypes clauses := by
          unfold highTypes
          exact List.mem_map_of_mem _ (List.mem_filter.mpr ⟨hc, by simp [hlev]⟩)
        rw [hht] at hmem
        exact absurd hmem (List.not_mem_nil _)
      | cons h t =>
        rw [htr] at hnone
        simp at hnone
    · intro hno
      have hht : highTypes clauses = [] := by
        unfold highTypes
        have : clauses.filter (fun c => decide (c.risk_level = some "High")) = [] := by
          rw [List.filter_eq_nil]
          intro c hc
          simp [hno c hc]
        rw [this]
        rfl
      have hkeysnil : (typeRiskOf clauses).map Prod.fst = [] := by
        rw [typeRisk_keys, hht]
        rfl
      have htr : typeRiskOf clauses = [] := List.map_eq_nil.mp hkeysnil
      unfold get_top_risky_clause_type
      rw [htr]
  · intro ct hct
    unfold get_top_risky_clause_type at hct
    cases htr : typeRiskOf clauses with
    | nil =>
      rw [htr] at hct
      simp at hct
    | cons h t =>
      rw [htr] at hct
      simp only [Option.some_inj] at hct
      obtain ⟨L1, L2, hdec, hpre, hall⟩ := pyMaxBy_spec (fun p => p.2) t h
      have hrmem : pyMaxBy (fun p => p.2) h t ∈ typeRiskOf clauses := by
        rw [htr, hdec]
        exact List.mem_append_right _ (List.mem_cons_self _ _)
      have hrval : (pyMaxBy (fun p => p.2) h t).2 =
          (highTypes clauses).count (pyMaxBy (fun p => p.2) h t).1 :=
        typeRisk_val clauses _ hrmem
      refine ⟨?_, ?_, ?_⟩
      · have hk1 : ct ∈ (typeRiskOf clauses).map Prod.fst := by
          rw [← hct]
          exact List.mem_map_of_mem _ hrmem
        rw [typeRisk_keys] at hk1
        have hk2 : ct ∈ highTypes clauses := by
          have := (mem_foldl_firstInsert _ _ _).mp hk1
          rcases this with h' | h'
          · exact absurd h' (List.not_mem_nil _)
          · exact h'
        exact List.count_pos_iff.mpr hk2
      · intro ct'
        by_cases hmem : ct' ∈ (typeRiskOf clauses).map Prod.fst
        · obtain ⟨p, hpmem, hp1⟩ := List.mem_map.mp hmem
          have hple : p.2 ≤ (pyMaxBy (fun p => p.2) h t).2 := by
            apply hall
            rw [← htr]
            exact hpmem
          have hpv := typeRisk_val clauses p hpmem
          rw [← hct, ← hrval, ← hp1, ← hpv]
          exact hple
        · have hnm : ct' ∉ highTypes clauses := by
            intro hmem2
            apply hmem
            rw [typeRisk_keys]
            exact (mem_foldl_firstInsert _ _ _).mpr (Or.inr hmem2)
          rw [List.count_eq_zero.mpr hnm]
          exact Nat.zero_le _
      · refine ⟨L1.map Prod.fst, L2.map Prod.fst, ?_, ?_⟩
        · rw [← typeRisk_keys, htr, hdec, ← hct]
          simp
        · intro k hk
          obtain ⟨p, hpL1, hp1⟩ := List.mem_map.mp hk
          have hpmem : p ∈ typeRiskOf clauses := by
            rw [htr, hdec]
            exact List.mem_append_left _ hpL1
          have hplt : p.2 < (pyMaxBy (fun p => p.2) h t).2 := hpre p hpL1
          have hpv := typeRisk_val clauses p hpmem
          rw [← hct, ← hrval, ← hp1, ← hpv]
          exact hplt

/-- Demonstration input for the C8 witness: a High Payment clause. -/
def demoPayHigh : RiskClause :=
  { original_text := none, clause_type := some "Payment",
    risk_level := some "High", risk_reason := none,
    risk_indicators := [], risk_score := some 60 }

/-- Demonstration input for the C8 witness: a High Liability clause. -/
def demoLiabHigh : RiskClause :=
  { original_text := none, clause_type := some "Liability",
    risk_level := some "High", risk_reason := none,
    risk_indicators := [], risk_score := some 70 }

/-- Witness for C8 on a concrete clause list: two High Payment clauses
and one High Liability clause give top type Payment with count 2. -/
theorem top_risky_clause_type_spec_witness :
    0 < (highTypes [demoPayHigh, demoLiabHigh, demoPayHigh]).count "Payment" ∧
    (∀ ct', (highTypes [demoPayHigh, demoLiabHigh, demoPayHigh]).count ct' ≤
      (highTypes [demoPayHigh, demoLiabHigh, demoPayHigh]).count "Payment") ∧
    ∃ K1 K2, firstDedup (highTypes [demoPayHigh, demoLiabHigh, demoPayHigh]) =
        K1 ++ "Payment" :: K2 ∧
      ∀ k ∈ K1, (highTypes [demoPayHigh, demoLiabHigh, demoPayHigh]).count k <
        (highTypes [demoPayHigh, demoLiabHigh, demoPayHigh]).count "Payment" :=
  (top_risky_clause_type_spec [demoPayHigh, demoLiabHigh, demoPayHigh]).2 "Payment"
    (by decide)

/- ══════════════════════════════════════════════════════════════════
   CLAUSE KEYWORD MAP AND CLASSIFIER (clause_service.py)
   ══════════════════════════════════════════════════════════════════ -/

/-- The `CLAUSE_KEYWORD_MAP` dict of `clause_service.py`
(clause type → keyword list), as an association list in insertion
order. -/
def CLAUSE_KEYWORD_MAP : List (String × List Str) := [
  ("Confidentiality", [
    "confidential".toList, "non-disclosure".toList, "nda".toList,
    "proprietary information".toList, "trade secret".toList, "secret".toList,
    "disclose".toList, "disclosure".toList, "classified".toList]),
  ("Payment", [
    "payment".toList, "invoice".toList, "fee".toList, "amount due".toList,
    "billing".toList, "compensation".toList, "remuneration".toList, "salary".toList,
    "cost".toList, "price".toList, "charges".toList, "installment".toList,
    "refund".toList, "revenue share".toList, "royalty".toList]),
  ("Termination", [
    "terminat".toList, "end of agreement".toList, "cancel".toList, "expir".toList,
    "breach".toList, "notice period".toList, "wind down".toList, "dissolution".toList,
    "rescind".toList, "void".toList, "cessation".toList]),
  ("Liability", [
    "liability".toList, "liable".toList, "damages".toList, "indemnif".toList,
    "hold harmless".toList, "limitation of liability".toList,
    "consequential".toList, "punitive".toList, "negligence".toList]),
  ("Intellectual Property", [
    "intellectual property".toList, "ip rights".toList, "copyright".toList,
    "trademark".toList, "patent".toList, "trade dress".toList, "invention".toList,
    "proprietary".toList, "work for hire".toList, "moral rights".toList,
    "license".toList, "assignment of rights".toList]),
  ("Governing Law", [
    "governing law".toList, "jurisdiction".toList, "applicable law".toList,
    "legal venue".toList, "forum".toList, "choice of law".toList,
    "courts of".toList, "state of".toList, "laws of".toList]),
  ("Dispute Resolution", [
    "arbitration".toList, "mediation".toList, "dispute".toList,
    "resolution".toList, "adr".toList, "litigation".toList,
    "legal proceedings".toList, "claim".toList, "settle".toList]),
  ("Force Majeure", [
    "force majeure".toList, "act of god".toList, "unforeseen".toList,
    "beyond control".toList, "pandemic".toList, "natural disaster".toList,
    "war".toList, "strike".toList, "government order".toList, "epidemic".toList]),
  ("Amendment", [
    "amendment".toList, "modification".toList, "changes to".toList,
    "update to agreement".toList, "addendum".toList, "supplement".toList,
    "revised".toList, "restate".toList]),
  ("Warranty", [
    "warranty".toList, "guarantee".toList, "represent".toList,
    "warrant".toList, "merchantability".toList, "fitness".toList,
    "as-is".toList, "no warranty".toList, "disclaimer".toList]),
  ("Indemnification", [
    "indemnif".toList, "indemnity".toList, "defend".toList,
    "hold harmless".toList, "third-party claims".toList, "losses".toList]),
  ("Non-Compete", [
    "non-compete".toList, "non compete".toList, "competition".toList,
    "competing business".toList, "restrictive covenant".toList,
    "restraint of trade".toList]),
  ("Non-Solicitation", [
    "non-solicitation".toList, "solicit".toList, "poach".toList,
    "hire away".toList, "recruit".toList, "employees of".toList]),
  ("Data Privacy", [
    "personal data".toList, "gdpr".toList, "ccpa".toList, "data protection".toList,
    "privacy policy".toList, "data processing".toList, "data subject".toList,
    "pii".toList, "data breach".toList, "sensitive information".toList]),
  ("Assignment", [
    "assignment".toList, "assign".toList, "transfer rights".toList,
    "delegate".toList, "novation".toList, "successor".toList]),
  ("Severability", [
    "severability".toList, "severable".toList, "invalid provision".toList,
    "unenforceable".toList, "remaining provisions".toList]),
  ("Entire Agreement", [
    "entire agreement".toList, "supersedes".toList, "whole agreement".toList,
    "prior understandings".toList, "merger clause".toList,
    "integration clause".toList])]

/-- The minimum clause word count `MIN_CLAUSE_WORDS`. -/
def MIN_CLAUSE_WORDS : Nat := 8

/-- The maximum clause word count `MAX_CLAUSE_WORDS`. -/
def MAX_CLAUSE_WORDS : Nat := 200

/-- A category's score in `_detect_clause_type`: the number of its
keywords that occur as substrings of the (already lowercased) sentence —
each keyword contributes at most 1 however often it occurs. -/
def catScore (sentence_lower : Str) (keywords : List Str) : Nat :=
  (keywords.filter (fun kw => containsPat kw sentence_lower)).length

/-- The `scores` dict built by `_detect_clause_type`: positive category
scores in keyword-table (dict insertion) order. -/
def scoresOf (sentence_lower : Str) : List (String × Nat) :=
  CLAUSE_KEYWORD_MAP.filterMap
    (fun e =>
      let score := catScore sentence_lower e.2
      if 0 < score then some (e.1, score) else none)

/-- The `_detect_clause_type` function of `clause_service.py`: scores
every category of the keyword table against the lowercased sentence,
keeps positive scores in table (dict insertion) order, and returns the
first-encountered maximum (Python `max(scores, key=scores.get)`), or
`none` when no category scores. -/
def _detect_clause_type (sentence : Str) : Option String :=
  let sentence_lower := lowerStr sentence
  match scoresOf sentence_lower with
  | [] => none
  | h :: t => some (pyMaxBy (fun p => p.2) h t).1

theorem filterMap_split {α β : Type} (f : α → Option β) :
    ∀ (l : List α) (s1 s2 : List β) (b : β), l.filterMap f = s1 ++ b :: s2 →
    ∃ m1 a m2, l = m1 ++ a :: m2 ∧ f a = some b ∧ m1.filterMap f = s1 := by
  intro l
  induction l with
  | nil =>
    intro s1 s2 b h
    rw [List.filterMap_nil] at h
    exact absurd h.symm (List.append_ne_nil_of_right_ne_nil _ (List.cons_ne_nil _ _))
  | cons x t ih =>
    intro s1 s2 b h
    cases hfx : f x with
    | none =>
      rw [List.filterMap_cons_none hfx] at h
      obtain ⟨m1, a, m2, hl, hfa, hm1⟩ := ih s1 s2 b h
      exact ⟨x :: m1, a, m2, by rw [hl, List.cons_append],
        hfa, by rw [List.filterMap_cons_none hfx, hm1]⟩
    | some y =>
      rw [List.filterMap_cons_some hfx] at h
      cases s1 with
      | nil =>
        simp only [List.nil_append] at h
        obtain ⟨hy, ht⟩ := List.cons_eq_cons.mp h
        exact ⟨[], x, t, rfl, by rw [hfx, hy], rfl⟩
      | cons z s1' =>
        simp only [List.cons_append] at h
        obtain ⟨hy, ht⟩ := List.cons_eq_cons.mp h
        obtain ⟨m1, a, m2, hl, hfa, hm1⟩ := ih s1' s2 b ht
        exact ⟨x :: m1, a, m2, by rw [hl, List.cons_append], hfa,
          by rw [List.filterMap_cons_some hfx, hm1, hy]⟩

/-- C6.  Classifier scoring and tie-break: `_detect_clause_type` returns
`none` iff every category's keyword-presence count is 0; otherwise it
returns the category of a keyword-table entry with the maximal score
such that every entry strictly before it in the table's insertion order
scores strictly less (first-wins tie-break). -/
theorem detect_clause_type_spec (s : Str) :
    (_detect_clause_type s = none ↔
      ∀ e ∈ CLAUSE_KEYWORD_MAP, catScore (lowerStr s) e.2 = 0) ∧
    ∀ ct, _detect_clause_type s = some ct →
      ∃ M1 e M2, CLAUSE_KEYWORD_MAP = M1 ++ e :: M2 ∧ e.1 = ct ∧
        0 < catScore (lowerStr s) e.2 ∧
        (∀ e' ∈ CLAUSE_KEYWORD_MAP,
          catScore (lowerStr s) e'.2 ≤ catScore (lowerStr s) e.2) ∧
        ∀ e' ∈ M1, catScore (lowerStr s) e'.2 < catScore (lowerStr s) e.2 := by
  have hd : _detect_clause_type s =
      (match scoresOf (lowerStr s) with
        | [] => none
        | h :: t => some (pyMaxBy (fun p => p.2) h t).1) := rfl
  constructor
  · constructor
    · intro hnone e he
      by_contra hne
      have hpos : 0 < catScore (lowerStr s) e.2 := Nat.pos_of_ne_zero hne
      have hmem : (e.1, catScore (lowerStr s) e.2) ∈ scoresOf (lowerStr s) := by
        unfold scoresOf
        apply List.mem_filterMap.mpr
        exact ⟨e, he, if_pos hpos⟩
      cases hsc : scoresOf (lowerStr s) with
      | nil =>
        rw [hsc] at hmem
        exact absurd hmem (List.not_mem_nil _)
      | cons h t =>
        rw [hd, hsc] at hnone
        exact absurd hnone (by simp)
    · intro hall
      have hnil : scoresOf (lowerStr s) = [] := by
        unfold scoresOf
        apply List.filterMap_eq_nil.mpr
        intro e he
        simp [hall e he]
      rw [hd, hnil]
  · intro ct hct
    rw [hd] at hct
    cases hsc : scoresOf (lowerStr s) with
    | nil =>
      rw [hsc] at hct
      exact absurd hct (by simp)
    | cons h t =>
      rw [hsc] at hct
      simp only [Option.some_inj] at hct
      obtain ⟨L1, L2, hdec, hpre, hall⟩ := pyMaxBy_spec (fun p => p.2) t h
      have hdec' : CLAUSE_KEYWORD_MAP.filterMap
          (fun e =>
            let score := catScore (lowerStr s) e.2
            if 0 < score then some (e.1, score) else none) =
          L1 ++ pyMaxBy (fun p => p.2) h t :: L2 := by
        have : scoresOf (lowerStr s) = L1 ++ pyMaxBy (fun p => p.2) h t :: L2 := by
          rw [hsc, hdec]
        unfold scoresOf at this
        exact this
      obtain ⟨M1, e, M2, hmap, hfe, hm1⟩ :=
        filterMap_split _ CLAUSE_KEYWORD_MAP L1 L2 _ hdec'
      have hfe' : (if 0 < catScore (lowerStr s) e.2 then
          some (e.1, catScore (lowerStr s) e.2) else none) =
          some (pyMaxBy (fun p => p.2) h t) := hfe
      have hescore : 0 < catScore (lowerStr s) e.2 ∧
          (e.1, catScore (lowerStr s) e.2) = pyMaxBy (fun p => p.2) h t := by
        by_cases hp : 0 < catScore (lowerStr s) e.2
        · rw [if_pos hp] at hfe'
          exact ⟨hp, Option.some_inj.mp hfe'⟩
        · rw [if_neg hp] at hfe'
          exact absurd hfe' (by simp)
      have hmaxval : catScore (lowerStr s) e.2 = (pyMaxBy (fun p => p.2) h t).2 := by
        rw [← hescore.2]
      refine ⟨M1, e, M2, hmap, ?_, hescore.1, ?_, ?_⟩
      · rw [← hct, ← hescore.2]
      · intro e' he'
        by_cases hp : 0 < catScore (lowerStr s) e'.2
        · have hmem : (e'.1, catScore (lowerStr s) e'.2) ∈ scoresOf (lowerStr s) := by
            unfold scoresOf
            apply List.mem_filterMap.mpr
            exact ⟨e', he', if_pos hp⟩
          rw [hsc] at hmem
          have := hall _ hmem
          rw [hmaxval]
          exact this
        · rw [hmaxval]
          rw [Nat.eq_zero_of_not_pos hp]
          exact Nat.zero_le _
      · intro e' he'
        by_cases hp : 0 < catScore (lowerStr s) e'.2
        · have hmem : (e'.1, catScore (lowerStr s) e'.2) ∈ M1.filterMap
              (fun e =>
                let score := catScore (lowerStr s) e.2
                if 0 < score then some (e.1, score) else none) := by
            apply List.mem_filterMap.mpr
            exact ⟨e', he', if_pos hp⟩
          rw [hm1] at hmem
          have := hpre _ hmem
          rw [hmaxval]
          exact this
        · rw [hmaxval, ← hescore.2]
          rw [Nat.eq_zero_of_not_pos hp]
          exact hescore.1

/-- Witness for C6: the sentence "the payment invoice fee" scores 3 for
Payment and 0 elsewhere, so the classifier returns Payment. -/
theorem detect_clause_type_spec_witness :
    ∃ M1 e M2, CLAUSE_KEYWORD_MAP = M1 ++ e :: M2 ∧ e.1 = "Payment" ∧
      0 < catScore (lowerStr "the payment invoice fee".toList) e.2 ∧
      (∀ e' ∈ CLAUSE_KEYWORD_MAP,
        catScore (lowerStr "the payment invoice fee".toList) e'.2 ≤
          catScore (lowerStr "the payment invoice fee".toList) e.2) ∧
      ∀ e' ∈ M1,
        catScore (lowerStr "the payment invoice fee".toList) e'.2 <
          catScore (lowerStr "the payment invoice fee".toList) e.2 :=
  (detect_clause_type_spec "the payment invoice fee".toList).2 "Payment" (by decide)

/- ══════════════════════════════════════════════════════════════════
   TEXT PREPROCESSOR (clause_service.py `_preprocess_text`)
   Scanners are structural in an explicit fuel argument, always invoked
   with fuel = length of the scanned string; every recursive call
   consumes at least one character, so the fuel never runs out (the
   fuel-0 branch returns the remaining string unchanged).
   ══════════════════════════════════════════════════════════════════ -/

/-- Attempts to match the regex `\[PAGE \d+\]\n?` at the head of the
string; on success returns the remainder after the match. -/
def pmTail : Str → Option Str :=
  fun s => match s with
  | '[' :: 'P' :: 'A' :: 'G' :: 'E' :: ' ' :: rest =>
    if rest.takeWhile Char.isDigit = [] then none
    else
      match rest.dropWhile Char.isDigit with
      | ']' :: '\n' :: r => some r
      | ']' :: r => some r
      | _ => none
  | _ => none

theorem pmTail_sublist {s r : Str} (h : pmTail s = some r) : r.Sublist s := by
  unfold pmTail at h
  split at h
  · rename_i rest
    split at h
    · exact absurd h (by simp)
    · have hrs : (rest.dropWhile Char.isDigit).Sublist rest := List.dropWhile_sublist _
      have hbase : rest.Sublist ('[' :: 'P' :: 'A' :: 'G' :: 'E' :: ' ' :: rest) :=
        List.IsSuffix.sublist ⟨['[', 'P', 'A', 'G', 'E', ' '], rfl⟩
      split at h
      · rename_i heq
        obtain rfl := Option.some_inj.mp h
        refine List.Sublist.trans ?_ (hrs.trans hbase)
        rw [heq]
        exact (List.sublist_cons_self _ _).trans (List.sublist_cons_self _ _)
      · rename_i heq
        obtain rfl := Option.some_inj.mp h
        refine List.Sublist.trans ?_ (hrs.trans hbase)
        rw [heq]
        exact List.sublist_cons_self _ _
      · exact absurd h (by simp)
  · exact absurd h (by simp)

/-- Fueled scanner for `re.sub(r"\[PAGE \d+\]\n?", "", text)`: removes
every page-marker occurrence, scanning left to right. -/
def removePMAux : Nat → Str → Str
  | 0, s => s
  | _ + 1, [] => []
  | fuel + 1, c :: cs =>
    match pmTail (c :: cs) with
    | some r => removePMAux fuel r
    | none => c :: removePMAux fuel cs

/-- The page-marker removal of `_preprocess_text`. -/
def removePageMarkers (s : Str) : Str := removePMAux s.length s

theorem mem_removePMAux {c : Char} :
    ∀ (n : Nat) (s : Str), c ∈ removePMAux n s → c ∈ s := by
  intro n
  induction n with
  | zero => intro s h; exact h
  | succ m ih =>
    intro s h
    cases s with
    | nil => exact absurd h (List.not_mem_nil _)
    | cons x cs =>
      rw [removePMAux] at h
      cases hpm : pmTail (x :: cs) with
      | some r =>
        rw [hpm] at h
        exact (pmTail_sublist hpm).subset (ih r h)
      | none =>
        rw [hpm] at h
        rcases List.mem_cons.mp h with rfl | h'
        · exact List.mem_cons_self _ _
        · exact List.mem_cons_of_mem _ (ih cs h')

theorem mem_removePageMarkers {c : Char} {s : Str} (h : c ∈ removePageMarkers s) :
    c ∈ s :=
  mem_removePMAux _ _ h

/-- Fueled scanner for `re.sub(r"[ \t]+", " ", text)`: every maximal run
of spaces/tabs becomes a single space. -/
def collapseSpacesAux : Nat → Str → Str
  | 0, s => s
  | _ + 1, [] => []
  | fuel + 1, c :: cs =>
    if c == ' ' || c == '\t' then
      ' ' :: collapseSpacesAux fuel (cs.dropWhile (fun d => d == ' ' || d == '\t'))
    else c :: collapseSpacesAux fuel cs

/-- The horizontal-whitespace collapsing of `_preprocess_text`. -/
def collapseSpaces (s : Str) : Str := collapseSpacesAux s.length s

theorem mem_collapseSpacesAux {c : Char} :
    ∀ (n : Nat) (s : Str), c ∈ collapseSpacesAux n s → c ∈ s ∨ c = ' ' := by
  intro n
  induction n with
  | zero => intro s h; exact Or.inl h
  | succ m ih =>
    intro s h
    cases s with
    | nil => exact absurd h (List.not_mem_nil _)
    | cons x cs =>
      rw [collapseSpacesAux] at h
      by_cases hx : (x == ' ' || x == '\t') = true
      · rw [if_pos hx] at h
        rcases List.mem_cons.mp h with rfl | h'
        · exact Or.inr rfl
        · rcases ih _ h' with h'' | h''
          · exact Or.inl (List.mem_cons_of_mem _ ((List.dropWhile_sublist _).subset h''))
          · exact Or.inr h''
      · rw [if_neg hx] at h
        rcases List.mem_cons.mp h with rfl | h'
        · exact Or.inl (List.mem_cons_self _ _)
        · rcases ih _ h' with h'' | h''
          · exact Or.inl (List.mem_cons_of_mem _ h'')
          · exact Or.inr h''

theorem mem_collapseSpaces {c : Char} {s : Str} (h : c ∈ collapseSpaces s) :
    c ∈ s ∨ c = ' ' :=
  mem_collapseSpacesAux _ _ h

/-- Fueled scanner for `re.sub(r"\n{3,}", "\n\n", text)`: every maximal
run of 3 or more newlines becomes exactly two; shorter runs are kept. -/
def collapseNewlinesAux : Nat → Str → Str
  | 0, s => s
  | _ + 1, [] => []
  | fuel + 1, c :: cs =>
    if c == '\n' then
      let run := cs.takeWhile (fun d => d == '\n')
      let rest := cs.dropWhile (fun d => d == '\n')
      if 3 ≤ run.length + 1 then '\n' :: '\n' :: collapseNewlinesAux fuel rest
      else c :: (run ++ collapseNewlinesAux fuel rest)
    else c :: collapseNewlinesAux fuel cs

/-- The newline collapsing of `_preprocess_text`. -/
def collapseNewlines (s : Str) : Str := collapseNewlinesAux s.length s

theorem mem_collapseNewlinesAux {c : Char} :
    ∀ (n : Nat) (s : Str), c ∈ collapseNewlinesAux n s → c ∈ s ∨ c = '\n' := by
  intro n
  induction n with
  | zero => intro s h; exact Or.inl h
  | succ m ih =>
    intro s h
    cases s with
    | nil => exact absurd h (List.not_mem_nil _)
    | cons x cs =>
      rw [collapseNewlinesAux] at h
      by_cases hx : (x == '\n') = true
      · rw [if_pos hx] at h
        have hrest : c ∈ cs.dropWhile (fun d => d == '\n') → c ∈ x :: cs :=
          fun hm => List.mem_cons_of_mem _ ((List.dropWhile_sublist _).subset hm)
        by_cases hlen : 3 ≤ (cs.takeWhile (fun d => d == '\n')).length + 1
        · rw [if_pos hlen] at h
          rcases List.mem_cons.mp h with rfl | h'
          · exact Or.inr rfl
          rcases List.mem_cons.mp h' with rfl | h''
          · exact Or.inr rfl
          · rcases ih _ h'' with h3 | h3
            · exact Or.inl (hrest h3)
            · exact Or.inr h3
        · rw [if_neg hlen] at h
          rcases List.mem_cons.mp h with rfl | h'
          · exact Or.inl (List.mem_cons_self _ _)
          rcases List.mem_append.mp h' with h'' | h''
          · have := List.mem_takeWhile_imp h''
            simp only [beq_iff_eq] at this
            exact Or.inr this
          · rcases ih _ h'' with h3 | h3
            · exact Or.inl (hrest h3)
            · exact Or.inr h3
      · rw [if_neg hx] at h
        rcases List.mem_cons.mp h with rfl | h'
        · exact Or.inl (List.mem_cons_self _ _)
        · rcases ih _ h' with h'' | h''
          · exact Or.inl (List.mem_cons_of_mem _ h'')
          · exact Or.inr h''

theorem mem_collapseNewlines {c : Char} {s : Str} (h : c ∈ collapseNewlines s) :
    c ∈ s ∨ c = '\n' :=
  mem_collapseNewlinesAux _ _ h

theorem mem_pyStrip {c : Char} {s : Str} (h : c ∈ pyStrip s) : c ∈ s := by
  unfold pyStrip at h
  rw [List.mem_reverse] at h
  have h1 := (List.dropWhile_sublist _).subset h
  rw [List.mem_reverse] at h1
  exact (List.dropWhile_sublist _).subset h1

theorem mem_substChar {c t : Char} {r : Str} :
    ∀ s : Str, c ∈ substChar t r s → c ∈ r ∨ (c ∈ s ∧ c ≠ t) := by
  intro s
  induction s with
  | nil => intro h; exact absurd h (List.not_mem_nil _)
  | cons x cs ih =>
    intro h
    rw [substChar] at h
    rcases List.mem_append.mp h with h' | h'
    · by_cases hx : x = t
      · rw [if_pos hx] at h'
        exact Or.inl h'
      · rw [if_neg hx] at h'
        have : c = x := by simpa using h'
        exact Or.inr ⟨this ▸ List.mem_cons_self _ _, this ▸ hx⟩
    · rcases ih h' with h'' | ⟨hm, hne⟩
      · exact Or.inl h''
      · exact Or.inr ⟨List.mem_cons_of_mem _ hm, hne⟩

/-- The quote and dash normalization lines of `_preprocess_text`.
Fidelity note from the source bytes: the em dash U+2014 is replaced by
`" — "` — a SPACE-PADDED EM DASH, not an ASCII character — while the en
dash U+2013 is replaced by the ASCII `" - "`. -/
def normalizeQuotesDashes (t : Str) : Str :=
  substChar '–' [' ', '-', ' ']
    (substChar '—' [' ', '—', ' ']
      (substChar '’' ['\'']
        (substChar '‘' ['\'']
          (substChar '”' ['"']
            (substChar '“' ['"'] t)))))

/-- The `_preprocess_text` function of `clause_service.py`: remove page
markers, normalize quotes and dashes, collapse whitespace runs, and
strip. -/
def _preprocess_text (text : Str) : Str :=
  pyStrip (collapseNewlines (collapseSpaces (normalizeQuotesDashes
    (removePageMarkers text))))

theorem subst_elims {z t : Char} {r : Str} (s : Str) (hr : z ∉ r)
    (hzs : z = t ∨ z ∉ s) : z ∉ substChar t r s := by
  intro hmem
  rcases mem_substChar s hmem with h | ⟨hs, hne⟩
  · exact hr h
  · rcases hzs with rfl | h
    · exact hne rfl
    · exact h hs

theorem preprocess_not_mem (text : Str) {z : Char} (hsp : z ≠ ' ') (hnl : z ≠ '\n')
    (hnorm : ∀ t : Str, z ∉ normalizeQuotesDashes t) : z ∉ _preprocess_text text := by
  intro h
  unfold _preprocess_text at h
  have h6 := mem_pyStrip h
  rcases mem_collapseNewlines h6 with h5 | h5
  · rcases mem_collapseSpaces h5 with h4 | h4
    · exact hnorm _ h4
    · exact hsp h4
  · exact hnl h5

/-- C9 counterexample: the claim that the preprocessor's output contains
no em dash (U+2014) is false — the source replaces an em dash by a
space-padded em dash, so `_preprocess_text "a—b" = "a — b"`, which still
contains U+2014. -/
theorem preprocess_em_dash_counterexample :
    _preprocess_text "a—b".toList = ['a', ' ', '—', ' ', 'b'] ∧
    '—' ∈ _preprocess_text "a—b".toList := by
  constructor
  · decide
  · decide

/-- C9 (amended).  Dash/quote normalization: the preprocessor's output
contains no en dash (U+2013) and no curly quote (U+201C, U+201D, U+2018,
U+2019); em dashes are merely space-padded and may remain. -/
theorem preprocess_no_en_dash_no_curly (text : Str) :
    (_preprocess_text text).count '–' = 0 ∧
    (_preprocess_text text).count '“' = 0 ∧
    (_preprocess_text text).count '”' = 0 ∧
    (_preprocess_text text).count '‘' = 0 ∧
    (_preprocess_text text).count '’' = 0 := by
  refine ⟨?_, ?_, ?_, ?_, ?_⟩ <;> apply List.count_eq_zero.mpr
  · exact preprocess_not_mem text (by decide) (by decide) (fun t =>
      subst_elims _ (by decide) (Or.inl rfl))
  · exact preprocess_not_mem text (by decide) (by decide) (fun t =>
      subst_elims _ (by decide) (Or.inr (subst_elims _ (by decide) (Or.inr
        (subst_elims _ (by decide) (Or.inr (subst_elims _ (by decide) (Or.inr
          (subst_elims _ (by decide) (Or.inr (subst_elims _ (by decide)
            (Or.inl rfl))))))))))))
  · exact preprocess_not_mem text (by decide) (by decide) (fun t =>
      subst_elims _ (by decide) (Or.inr (subst_elims _ (by decide) (Or.inr
        (subst_elims _ (by decide) (Or.inr (subst_elims _ (by decide) (Or.inr
          (subst_elims _ (by decide) (Or.inl rfl))))))))))
  · exact preprocess_not_mem text (by decide) (by decide) (fun t =>
      subst_elims _ (by decide) (Or.inr (subst_elims _ (by decide) (Or.inr
        (subst_elims _ (by decide) (Or.inr (subst_elims _ (by decide)
          (Or.inl rfl))))))))
  · exact preprocess_not_mem text (by decide) (by decide) (fun t =>
      subst_elims _ (by decide) (Or.inr (subst_elims _ (by decide) (Or.inr
        (subst_elims _ (by decide) (Or.inl rfl))))))

/- ══════════════════════════════════════════════════════════════════
   SENTENCE SEGMENTATION, MERGING, METADATA (clause_service.py)
   The spaCy sentence-boundary model is an external component; the
   pipeline is parametrized by an arbitrary `nlp : Str → List Str`
   (chunk text → detected sentences), so every theorem below holds for
   any behaviour of the model.
   ══════════════════════════════════════════════════════════════════ -/

/-- The `parts` list computed inside `_split_long_sentence` before the
truncation fallback: non-empty stripped semicolon parts; an oversized
part is comma-split keeping only sub-parts of at least
`MIN_CLAUSE_WORDS` words, an in-range part is kept iff it has at least
`MIN_CLAUSE_WORDS` words. -/
def _split_long_sentence_parts (sentence : Str) : List Str :=
  (((List.splitOn ';' sentence).map pyStrip).filter (fun p => decide (p ≠ []))).flatMap
    (fun part =>
      if MAX_CLAUSE_WORDS < wc part then
        (((List.splitOn ',' part).map pyStrip).filter (fun p => decide (p ≠ []))).filter
          (fun p => decide (MIN_CLAUSE_WORDS ≤ wc p))
      else if MIN_CLAUSE_WORDS ≤ wc part then [part]
      else [])

/-- The `_split_long_sentence` function of `clause_service.py`: split an
oversized sentence at semicolons then commas; if no valid parts remain,
fall back to the sentence's first 500 characters. -/
def _split_long_sentence (sentence : Str) : List Str :=
  if _split_long_sentence_parts sentence = [] then [sentence.take 500]
  else _split_long_sentence_parts sentence

/-- The chunk size (characters per spaCy pass) of `_segment_sentences`. -/
def chunk_size : Nat := 100000

/-- Fueled version of the chunking loop
`for i in range(0, len(text), chunk_size)`: emits slices of
`chunk_size` characters; always called with fuel = length, and every
recursive call drops `chunk_size > 0` characters. -/
def chunksOfAux : Nat → Str → List Str
  | 0, s => if s = [] then [] else [s]
  | fuel + 1, s =>
    if s = [] then []
    else if s.length ≤ chunk_size then [s]
    else s.take chunk_size :: chunksOfAux fuel (s.drop chunk_size)

/-- The chunking of `_segment_sentences`. -/
def chunksOf (s : Str) : List Str := chunksOfAux s.length s

/-- The `_segment_sentences` function of `clause_service.py`,
parametrized by the sentence-boundary model `nlp`: for every detected
sentence, strip it; drop it if under `MIN_CLAUSE_WORDS` words, split it
if over `MAX_CLAUSE_WORDS` words, else keep it. -/
def _segment_sentences (nlp : Str → List Str) (text : Str) : List Str :=
  (chunksOf text).flatMap (fun chunk =>
    (nlp chunk).flatMap (fun sent =>
      if wc (pyStrip sent) < MIN_CLAUSE_WORDS then []
      else if MAX_CLAUSE_WORDS < wc (pyStrip sent) then
        _split_long_sentence (pyStrip sent)
      else [pyStrip sent]))

/-- The `_classify_sentences` function of `clause_service.py`: keep the
sentences the classifier labels, as (sentence, clause_type) pairs. -/
def _classify_sentences (sentences : List Str) : List (Str × String) :=
  sentences.filterMap (fun sentence =>
    (_detect_clause_type sentence).map (fun ct => (sentence, ct)))

/-- Loop of `_merge_adjacent_clauses`: accumulate consecutive sentences
of the same clause type, flushing a space-joined block on each type
change and once at the end. -/
def mergeGo (current_type : String) (current_texts : List Str) :
    List (Str × String) → List (String × Str)
  | [] => [(current_type, joinSep [' '] current_texts)]
  | item :: rest =>
    if item.2 = current_type then mergeGo current_type (current_texts ++ [item.1]) rest
    else (current_type, joinSep [' '] current_texts) :: mergeGo item.2 [item.1] rest

/-- The `_merge_adjacent_clauses` function of `clause_service.py`. -/
def _merge_adjacent_clauses : List (Str × String) → List (String × Str)
  | [] => []
  | first :: rest => mergeGo first.2 [first.1] rest

/-- A clause record as produced by `_assign_metadata`, restricted to the
fields the claims are about; the remaining fields of the source dict are
constant initializers (None/[]/"pending"), and `clause_id` is an
externally generated random UUID. -/
structure ClauseRecord where
  clause_type          : String
  original_text        : Str
  position_in_document : Nat
  word_count           : Nat
deriving DecidableEq

/-- Loop of `_assign_metadata` (`enumerate(merged, start=1)`). -/
def _assign_metadata_go (position : Nat) : List (String × Str) → List ClauseRecord
  | [] => []
  | item :: rest =>
    { clause_type := item.1, original_text := item.2,
      position_in_document := position, word_count := wc item.2 } ::
    _assign_metadata_go (position + 1) rest

/-- The `_assign_metadata` function of `clause_service.py`. -/
def _assign_metadata (merged : List (String × Str)) : List ClauseRecord :=
  _assign_metadata_go 1 merged

/-- The `extract_and_classify_clauses` pipeline of `clause_service.py`:
preprocess, segment, classify, merge, assign metadata. -/
def extract_and_classify_clauses (nlp : Str → List Str) (text : Str) :
    List ClauseRecord :=
  _assign_metadata (_merge_adjacent_clauses (_classify_sentences
    (_segment_sentences nlp (_preprocess_text text))))

/-- A sentence emitted by the segmenter via the truncation fallback: the
strip of a detected sentence of more than `MAX_CLAUSE_WORDS` words whose
semicolon/comma splitting yielded no valid part, emitted as its first
500 characters. -/
def IsFallbackEmission (nlp : Str → List Str) (ntext : Str) (s : Str) : Prop :=
  ∃ chunk ∈ chunksOf ntext, ∃ sent ∈ nlp chunk,
    MAX_CLAUSE_WORDS < wc (pyStrip sent) ∧
    _split_long_sentence_parts (pyStrip sent) = [] ∧
    s = (pyStrip sent).take 500

theorem wcAux_append_sep (ys : Str) :
    ∀ (xs : Str) (b : Bool), wcAux b (xs ++ ' ' :: ys) = wcAux b xs + wc ys := by
  intro xs
  induction xs with
  | nil =>
    intro b
    simp [wcAux, wc]
  | cons c cs ih =>
    intro b
    simp only [List.cons_append, wcAux]
    by_cases hc : c.isWhitespace
    · rw [if_pos hc, if_pos hc, List.append_eq, ih]
    · rw [if_neg hc, if_neg hc, List.append_eq, ih]
      omega

theorem wc_append_sep (xs ys : Str) : wc (xs ++ ' ' :: ys) = wc xs + wc ys :=
  wcAux_append_sep ys xs false

theorem wc_joinSpace : ∀ group : List Str,
    wc (joinSep [' '] group) = (group.map wc).sum := by
  intro group
  induction group with
  | nil => rfl
  | cons x xs ih =>
    cases xs with
    | nil => simp [joinSep]
    | cons y ys =>
      have hsplit : joinSep [' '] (x :: y :: ys) = x ++ ' ' :: joinSep [' '] (y :: ys) := by
        rw [joinSep]
        simp
      rw [hsplit, wc_append_sep, ih]
      simp [List.map_cons, List.sum_cons]

theorem split_long_parts_min (sentence : Str) :
    ∀ p ∈ _split_long_sentence_parts sentence, MIN_CLAUSE_WORDS ≤ wc p := by
  intro p hp
  unfold _split_long_sentence_parts at hp
  rcases List.mem_flatMap.mp hp with ⟨part, hpart, hpmem⟩
  by_cases h1 : MAX_CLAUSE_WORDS < wc part
  · rw [if_pos h1] at hpmem
    have := List.mem_filter.mp hpmem
    simpa using this.2
  · rw [if_neg h1] at hpmem
    by_cases h2 : MIN_CLAUSE_WORDS ≤ wc part
    · rw [if_pos h2] at hpmem
      have hpe : p = part := by simpa using hpmem
      rw [hpe]
      exact h2
    · rw [if_neg h2] at hpmem
      exact absurd hpmem (List.not_mem_nil _)

theorem segment_min_or_fallback (nlp : Str → List Str) (ntext : Str) :
    ∀ s ∈ _segment_sentences nlp ntext,
    MIN_CLAUSE_WORDS ≤ wc s ∨
      (IsFallbackEmission nlp ntext s ∧ wc s < MIN_CLAUSE_WORDS) := by
  intro s hs
  unfold _segment_sentences at hs
  rcases List.mem_flatMap.mp hs with ⟨chunk, hchunk, hs2⟩
  rcases List.mem_flatMap.mp hs2 with ⟨sent, hsent, hs3⟩
  by_cases h1 : wc (pyStrip sent) < MIN_CLAUSE_WORDS
  · rw [if_pos h1] at hs3
    exact absurd hs3 (List.not_mem_nil _)
  · rw [if_neg h1] at hs3
    by_cases h2 : MAX_CLAUSE_WORDS < wc (pyStrip sent)
    · rw [if_pos h2] at hs3
      unfold _split_long_sentence at hs3
      by_cases h3 : _split_long_sentence_parts (pyStrip sent) = []
      · rw [if_pos h3] at hs3
        have hsq : s = (pyStrip sent).take 500 := by simpa using hs3
        by_cases h4 : MIN_CLAUSE_WORDS ≤ wc s
        · exact Or.inl h4
        · exact Or.inr ⟨⟨chunk, hchunk, sent, hsent, h2, h3, hsq⟩, Nat.lt_of_not_le h4⟩
      · rw [if_neg h3] at hs3
        exact Or.inl (split_long_parts_min _ s hs3)
    · rw [if_neg h2] at hs3
      have hse : s = pyStrip sent := by simpa using hs3
      exact Or.inl (hse ▸ Nat.le_of_not_lt h1)

theorem classify_mem (sentences : List Str) :
    ∀ p ∈ _classify_sentences sentences, p.1 ∈ sentences := by
  intro p hp
  unfold _classify_sentences at hp
  rcases List.mem_filterMap.mp hp with ⟨s, hs, heq⟩
  cases hdet : _detect_clause_type s with
  | none =>
    rw [hdet] at heq
    exact absurd heq (by simp)
  | some ct =>
    rw [hdet] at heq
    have hpe : (s, ct) = p := by simpa using heq
    rw [← hpe]
    exact hs

theorem mergeGo_structure :
    ∀ (rest : List (Str × String)) (ty : String) (texts : List Str), texts ≠ [] →
    ∀ b ∈ mergeGo ty texts rest,
    ∃ group : List Str, group ≠ [] ∧
      (∀ s ∈ group, s ∈ texts ∨ ∃ ty', (s, ty') ∈ rest) ∧
      b.2 = joinSep [' '] group := by
  intro rest
  induction rest with
  | nil =>
    intro ty texts hne b hb
    have hbe : b = (ty, joinSep [' '] texts) := by simpa [mergeGo] using hb
    exact ⟨texts, hne, fun s hs => Or.inl hs, by rw [hbe]⟩
  | cons item rest ih =>
    intro ty texts hne b hb
    rw [mergeGo] at hb
    by_cases hty : item.2 = ty
    · rw [if_pos hty] at hb
      obtain ⟨group, hgne, hgmem, hgeq⟩ := ih ty (texts ++ [item.1]) (by simp) b hb
      refine ⟨group, hgne, ?_, hgeq⟩
      intro s hs
      rcases hgmem s hs with hmem | ⟨ty', hmem⟩
      · rcases List.mem_append.mp hmem with h | h
        · exact Or.inl h
        · have hse : s = item.1 := by simpa using h
          refine Or.inr ⟨item.2, ?_⟩
          rw [hse, Prod.mk.eta]
          exact List.mem_cons_self _ _
      · exact Or.inr ⟨ty', List.mem_cons_of_mem _ hmem⟩
    · rw [if_neg hty] at hb
      rcases List.mem_cons.mp hb with rfl | hb'
      · exact ⟨texts, hne, fun s hs => Or.inl hs, rfl⟩
      · obtain ⟨group, hgne, hgmem, hgeq⟩ := ih item.2 [item.1] (by simp) b hb'
        refine ⟨group, hgne, ?_, hgeq⟩
        intro s hs
        rcases hgmem s hs with hmem | ⟨ty', hmem⟩
        · have hse : s = item.1 := by simpa using hmem
          refine Or.inr ⟨item.2, ?_⟩
          rw [hse, Prod.mk.eta]
          exact List.mem_cons_self _ _
        · exact Or.inr ⟨ty', List.mem_cons_of_mem _ hmem⟩

theorem merge_structure :
    ∀ (l : List (Str × String)) (b : String × Str), b ∈ _merge_adjacent_clauses l →
    ∃ group : List Str, group ≠ [] ∧
      (∀ s ∈ group, ∃ ty', (s, ty') ∈ l) ∧ b.2 = joinSep [' '] group := by
  intro l b hb
  cases l with
  | nil => exact absurd hb (by simp [_merge_adjacent_clauses])
  | cons first rest =>
    rw [_merge_adjacent_clauses] at hb
    obtain ⟨group, hgne, hgmem, hgeq⟩ :=
      mergeGo_structure rest first.2 [first.1] (by simp) b hb
    refine ⟨group, hgne, ?_, hgeq⟩
    intro s hs
    rcases hgmem s hs with hmem | ⟨ty', hmem⟩
    · have hse : s = first.1 := by simpa using hmem
      refine ⟨first.2, ?_⟩
      rw [hse, Prod.mk.eta]
      exact List.mem_cons_self _ _
    · exact ⟨ty', List.mem_cons_of_mem _ hmem⟩

theorem assign_metadata_go_mem :
    ∀ (merged : List (String × Str)) (pos : Nat) (c : ClauseRecord),
    c ∈ _assign_metadata_go pos merged →
    ∃ b ∈ merged, c.original_text = b.2 ∧ c.word_count = wc b.2 := by
  intro merged
  induction merged with
  | nil =>
    intro pos c hc
    exact absurd hc (by simp [_assign_metadata_go])
  | cons item rest ih =>
    intro pos c hc
    rw [_assign_metadata_go] at hc
    rcases List.mem_cons.mp hc with rfl | hc'
    · exact ⟨item, List.mem_cons_self _ _, rfl, rfl⟩
    · obtain ⟨b, hb, h1, h2⟩ := ih (pos + 1) c hc'
      exact ⟨b, List.mem_cons_of_mem _ hb, h1, h2⟩

/-- C4.  Minimum-length invariant: every clause record produced by
`extract_and_classify_clauses` (for any sentence-boundary model) has
`word_count ≥ MIN_CLAUSE_WORDS = 8`, except records whose text derives
entirely from truncation-fallback sentences — strips of >200-word
sentences whose semicolon/comma splitting yielded no sub-part of at
least 8 words, emitted as their first 500 characters. -/
theorem clause_min_word_count (nlp : Str → List Str) (text : Str) (c : ClauseRecord)
    (hc : c ∈ extract_and_classify_clauses nlp text) :
    MIN_CLAUSE_WORDS ≤ c.word_count ∨
    ∃ group : List Str, group ≠ [] ∧
      (∀ s ∈ group,
        IsFallbackEmission nlp (_preprocess_text text) s ∧ wc s < MIN_CLAUSE_WORDS) ∧
      c.original_text = joinSep [' '] group := by
  unfold extract_and_classify_clauses at hc
  obtain ⟨b, hb, hotext, hwcount⟩ := assign_metadata_go_mem _ 1 c hc
  obtain ⟨group, hgne, hgmem, hgeq⟩ := merge_structure _ b hb
  by_cases hall : ∀ s ∈ group, wc s < MIN_CLAUSE_WORDS
  · right
    refine ⟨group, hgne, ?_, by rw [hotext, hgeq]⟩
    intro s hs
    obtain ⟨ty', hmem⟩ := hgmem s hs
    have hsent : s ∈ _segment_sentences nlp (_preprocess_text text) :=
      classify_mem _ (s, ty') hmem
    rcases segment_min_or_fallback nlp _ s hsent with h | h
    · exact absurd h (Nat.not_le.mpr (hall s hs))
    · exact h
  · left
    push_neg at hall
    obtain ⟨s, hs, hwc⟩ := hall
    rw [hwcount, hgeq, wc_joinSpace]
    have hmem : wc s ∈ group.map wc := List.mem_map_of_mem _ hs
    exact le_trans hwc (List.single_le_sum (fun x _ => Nat.zero_le x) _ hmem)

/-- Sentence-boundary model used by the C4 witness: the whole chunk is
one sentence. -/
def demoNlp : Str → List Str := fun s => [s]

/-- Input text for the C4 witness. -/
def demoText : Str := "payment of the invoice fee is due today".toList

/-- Witness for C4: the pipeline on a concrete 8-word Payment sentence
produces a clause whose word_count is within the invariant. -/
theorem clause_min_word_count_witness :
    MIN_CLAUSE_WORDS ≤ (ClauseRecord.mk "Payment" demoText 1 8).word_count ∨
    ∃ group : List Str, group ≠ [] ∧
      (∀ s ∈ group,
        IsFallbackEmission demoNlp (_preprocess_text demoText) s ∧
          wc s < MIN_CLAUSE_WORDS) ∧
      (ClauseRecord.mk "Payment" demoText 1 8).original_text = joinSep [' '] group :=
  clause_min_word_count demoNlp demoText (ClauseRecord.mk "Payment" demoText 1 8)
    (by decide)

end Legalyze
